import Mathlib

/-!
# go-vite ledger core: token-head index, snapshot insertion, snapshot pool, snapshot chain, teller

A shallow embedding of the functions of the repository that the specification talks about,
followed by the theorems about them.

Conventions of the embedding
* `types.Hash`, `types.TokenTypeId`, `types.Address` and the `uint64` ids and heights are natural
  numbers; the zero value `types.TokenTypeId{}` is `0`.
* A Go `(value, error)` result is an `Except`; a nil pointer or nil slice is `none` or `[]`.
* A loop that the source does not bound (the walk of `deleteHash`) takes a fuel argument and
  returns `none` when the fuel runs out.
* The leveldb store of the token index is three typed maps; a `leveldb.Batch` is the list of its
  operations, applied in order by `write`.  Store I/O failures and malformed stored bytes are
  outside the model: every stored value is one that `addBlocks` or `saveHeadHash` wrote.
-/

namespace GoVite

/-! ## Token-head index (`chain/index/filter_token.go`) -/

abbrev Hash := Nat
abbrev TokenTypeId := Nat
abbrev Address := Nat

/-- The fields of `ledger.AccountBlock` that the embedded functions read. -/
structure AccountBlock where
  hash : Hash
  accountAddress : Address
  height : Nat
  tokenId : TokenTypeId
  isSendBlock : Bool
  fromBlockHash : Hash
deriving DecidableEq, Repr

/-- Errors returned by the embedded functions. -/
inductive Err where
  | chainErr (code : Nat)
  | sendBlockIsNil
  | blockNotExited (h : Hash)
  | lackBlock
  | keyPointIsNil
  | poolErr (code : Nat)
  | rollbackHappened
deriving DecidableEq, Repr

/-- The `Chain` interface consumed by the index builder. -/
structure Chain where
  IsGenesisAccountBlock : AccountBlock → Bool
  GetAccountBlockByHash : Hash → Except Err (Option AccountBlock)
  IsAccountBlockExisted : Hash → Except Err Bool

/-- The three key spaces of the index store.  A `BLOCK_LIST_BY_TOKEN` entry is `some none` when
the key is present with an empty value and `some (some p)` when it holds the hash `p`. -/
structure IndexDB where
  blockListByToken : Hash → Option (Option Hash)
  accountTokenMeta : Nat × TokenTypeId → Option Hash
  headHash : Hash → Option (Nat × TokenTypeId)

/-- The empty index. -/
def IndexDB.empty : IndexDB :=
  { blockListByToken := fun _ => none
    accountTokenMeta := fun _ => none
    headHash := fun _ => none }

/-- One operation of a `leveldb.Batch`, by key space. -/
inductive BatchOp where
  | putBlockList (h : Hash) (prev : Option Hash)
  | putMeta (accountId : Nat) (tokenTypeId : TokenTypeId) (h : Hash)
  | delMeta (accountId : Nat) (tokenTypeId : TokenTypeId)
  | putHead (h : Hash) (accountId : Nat) (tokenTypeId : TokenTypeId)
  | delHead (h : Hash)
deriving DecidableEq, Repr

/-- Map update at one key. -/
def setKey {κ : Type} [DecidableEq κ] {β : Type} (m : κ → β) (k : κ) (v : β) : κ → β :=
  fun x => if x = k then v else m x

/-- Effect of one batch operation on the store. -/
def applyOp (db : IndexDB) : BatchOp → IndexDB
  | .putBlockList h prev => { db with blockListByToken := setKey db.blockListByToken h (some prev) }
  | .putMeta a t h => { db with accountTokenMeta := setKey db.accountTokenMeta (a, t) (some h) }
  | .delMeta a t => { db with accountTokenMeta := setKey db.accountTokenMeta (a, t) none }
  | .putHead h a t => { db with headHash := setKey db.headHash h (some (a, t)) }
  | .delHead h => { db with headHash := setKey db.headHash h none }

/-- `db.Write(batch, nil)`: the operations are applied in order, atomically. -/
def write (db : IndexDB) (batch : List BatchOp) : IndexDB :=
  batch.foldl applyOp db

/-- `getHeadHash`: the persisted head of `(accountId, tokenTypeId)`, nil when not found. -/
def getHeadHash (db : IndexDB) (accountId : Nat) (tokenTypeId : TokenTypeId) : Option Hash :=
  db.accountTokenMeta (accountId, tokenTypeId)

/-- `saveHeadHash`: two puts appended to the batch. -/
def saveHeadHash (batch : List BatchOp) (accountId : Nat) (tokenTypeId : TokenTypeId)
    (hash : Hash) : List BatchOp :=
  batch ++ [.putMeta accountId tokenTypeId hash, .putHead hash accountId tokenTypeId]

/-- `getPrevHash`: nil when the key is absent or its value is empty. -/
def getPrevHash (db : IndexDB) (hash : Hash) : Option Hash :=
  match db.blockListByToken hash with
  | none => none
  | some v => v

/-- `deleteHeadHashIndex`. -/
def deleteHeadHashIndex (batch : List BatchOp) (hash : Hash) : List BatchOp :=
  batch ++ [.delHead hash]

/-- `deleteHeadHash`. -/
def deleteHeadHash (batch : List BatchOp) (accountId : Nat) (tokenTypeId : TokenTypeId) :
    List BatchOp :=
  batch ++ [.delMeta accountId tokenTypeId]

/-- `isExisted`: `db.Has` on the `BLOCK_LIST_BY_TOKEN` key. -/
def isExisted (db : IndexDB) (hash : Hash) : Bool :=
  (db.blockListByToken hash).isSome

/-- `getBlockTokenId`. -/
def getBlockTokenId (chain : Chain) (block : AccountBlock) : Except Err TokenTypeId :=
  if chain.IsGenesisAccountBlock block then .ok 0
  else if block.isSendBlock then .ok block.tokenId
  else
    match chain.GetAccountBlockByHash block.fromBlockHash with
    | .error e => .error e
    | .ok none => .error .sendBlockIsNil
    | .ok (some sendBlock) => .ok sendBlock.tokenId

/-- `unsavedHeadHash[tokenId] = hash` on the staging map, kept as an association list in order
of first insertion. -/
def stagingSet : List (TokenTypeId × Hash) → TokenTypeId → Hash → List (TokenTypeId × Hash)
  | [], t, h => [(t, h)]
  | (t', h') :: rest, t, h =>
    if t' = t then (t, h) :: rest else (t', h') :: stagingSet rest t h

/-- `unsavedHeadHash[tokenId]` with its `ok` flag. -/
def stagingGet : List (TokenTypeId × Hash) → TokenTypeId → Option Hash
  | [], _ => none
  | (t', h') :: rest, t => if t' = t then some h' else stagingGet rest t

/-- The `for _, block := range blocks` loop of `addBlocks`.  Reads go to the store, which the
pending batch has not yet changed. -/
def addBlocksLoop (chain : Chain) (db : IndexDB) (accountId : Nat) :
    List AccountBlock → List BatchOp → List (TokenTypeId × Hash) →
    Except Err (List BatchOp × List (TokenTypeId × Hash))
  | [], batch, unsaved => .ok (batch, unsaved)
  | block :: rest, batch, unsaved =>
    if isExisted db block.hash then addBlocksLoop chain db accountId rest batch unsaved
    else
      match getBlockTokenId chain block with
      | .error e => .error e
      | .ok tokenId =>
        let prevHashInToken : Option Hash :=
          match stagingGet unsaved tokenId with
          | some hash => some hash
          | none => getHeadHash db accountId tokenId
        addBlocksLoop chain db accountId rest
          (batch ++ [.putBlockList block.hash prevHashInToken])
          (stagingSet unsaved tokenId block.hash)

/-- The `for tokenTypeId, headHash := range unsavedHeadHash` loop of `addBlocks`.  Go leaves the
order of a map range unspecified; the model ranges in order of first insertion. -/
def saveHeads (accountId : Nat) : List (TokenTypeId × Hash) → List BatchOp → List BatchOp
  | [], batch => batch
  | (t, h) :: rest, batch => saveHeads accountId rest (saveHeadHash batch accountId t h)

/-- `addBlocks`. -/
def addBlocks (chain : Chain) (db : IndexDB) (accountId : Nat) (blocks : List AccountBlock) :
    Except Err IndexDB :=
  match addBlocksLoop chain db accountId blocks [] [] with
  | .error e => .error e
  | .ok (batch, unsaved) => .ok (write db (saveHeads accountId unsaved batch))

/-- The `for` loop of `deleteHash`: from `cur`, follow `getPrevHash` until a null predecessor or a
hash the chain reports as existing.  `none` when `fuel` iterations did not end the loop. -/
def deleteWalk (chain : Chain) (db : IndexDB) : Nat → Hash → Option (Except Err (Option Hash))
  | 0, _ => none
  | fuel + 1, cur =>
    match getPrevHash db cur with
    | none => some (.ok none)
    | some p =>
      match chain.IsAccountBlockExisted p with
      | .error e => some (.error e)
      | .ok true => some (.ok (some p))
      | .ok false => deleteWalk chain db fuel p

/-- `deleteHash`, with the fuel of its walk. -/
def deleteHash (fuel : Nat) (chain : Chain) (db : IndexDB) (headHash : Hash) :
    Option (Except Err IndexDB) :=
  match db.headHash headHash with
  | none => some (.ok db)
  | some (accountId, tokenTypeId) =>
    match deleteWalk chain db fuel headHash with
    | none => none
    | some (.error e) => some (.error e)
    | some (.ok newHeadHash) =>
      let batch := deleteHeadHashIndex (deleteHeadHash [] accountId tokenTypeId) headHash
      let batch :=
        match newHeadHash with
        | some h => saveHeadHash batch accountId tokenTypeId h
        | none => batch
      some (.ok (write db batch))

/-- The `for i := uint64(1); i < count; i++` loop of `GetBlockHashList`, given the number of
iterations that remain; the hashes it appends. -/
def hashListLoop (db : IndexDB) : Nat → Hash → List Hash
  | 0, _ => []
  | n + 1, currentHash =>
    match getPrevHash db currentHash with
    | none => []
    | some prevHash => prevHash :: hashListLoop db n prevHash

/-- `GetBlockHashList`; the nil slice of the no-head return is `[]`. -/
def GetBlockHashList (db : IndexDB) (accountId : Nat) (originBlockHash : Option Hash)
    (tokenTypeId : TokenTypeId) (count : Nat) : Except Err (List Hash) :=
  match originBlockHash with
  | none =>
    match getHeadHash db accountId tokenTypeId with
    | none => .ok []
    | some headHash => .ok (headHash :: hashListLoop db (count - 1) headHash)
  | some headHash =>
    if isExisted db headHash then .ok (headHash :: hashListLoop db (count - 1) headHash)
    else .error (.blockNotExited headHash)

/-! ## Snapshot insertion (`chain/insert.go`) -/

/-- `ledger.HashHeight`. -/
structure HashHeight where
  hash : Hash
  height : Nat
deriving DecidableEq, Repr

/-- `ledger.SnapshotContent`, a Go map from address to `HashHeight`, as the list of its entries;
a list stands for a Go map when its keys are pairwise distinct. -/
abbrev SnapshotContent := List (Address × HashHeight)

/-- `sc[addr]` with its `ok` flag. -/
def scGet : SnapshotContent → Address → Option HashHeight
  | [], _ => none
  | (a, hh) :: rest, addr => if a = addr then some hh else scGet rest addr

/-- The fields of `ledger.SnapshotBlock` that the embedded functions read. -/
structure SnapshotBlock where
  hash : Hash
  prevHash : Hash
  height : Nat
  snapshotContent : SnapshotContent
deriving DecidableEq, Repr

/-- The `for _, block := range blocks` loop of `getBlocksToBeConfirmed`: `some` of the returned
list when the loop returns early, `none` when it runs off the end of `blocks`. -/
def confirmLoop (sc : SnapshotContent) (scLen : Nat) :
    List AccountBlock → List AccountBlock → Nat → Option (List AccountBlock)
  | [], _, _ => none
  | block :: rest, blocksToBeConfirmed, finishCount =>
    let step : List AccountBlock × Nat :=
      match scGet sc block.accountAddress with
      | some hashHeight =>
        if block.height < hashHeight.height then (blocksToBeConfirmed ++ [block], finishCount)
        else if block.height = hashHeight.height then
          (blocksToBeConfirmed ++ [block], finishCount + 1)
        else (blocksToBeConfirmed, finishCount)
      | none => (blocksToBeConfirmed, finishCount)
    if step.2 ≥ scLen then some step.1 else confirmLoop sc scLen rest step.1 step.2

/-- `getBlocksToBeConfirmed`, given the result `unconfirmed` of `c.cache.GetUnconfirmedBlocks()`.
The returned slice is `none` when it is nil; the lack-block path returns the whole candidate list
together with the error. -/
def getBlocksToBeConfirmed (unconfirmed : List AccountBlock) (sc : SnapshotContent) :
    Option (List AccountBlock) × Option Err :=
  if sc.length ≤ 0 then (none, none)
  else
    match confirmLoop sc sc.length unconfirmed [] 0 with
    | some blocksToBeConfirmed => (some blocksToBeConfirmed, none)
    | none => (some unconfirmed, some .lackBlock)

/-- Names of the events that `InsertSnapshotBlock` fires. -/
inductive EventName where
  | prepareInsertSbsEvent
  | InsertSbsEvent
deriving DecidableEq, Repr

/-- The calls `InsertSnapshotBlock` makes on its collaborators (event emitter, block store, index
DB, cache, state DB, flusher), none of which is in the sources: the chain state changes only
through these calls, so the function is embedded as the sequence of calls it makes. -/
inductive ChainEffect where
  | trigger (name : EventName) (sbList : List SnapshotBlock)
  | blockDBWrite (snapshotBlock : SnapshotBlock) (accountBlocks : Option (List AccountBlock))
  | indexDBInsertSnapshotBlock (snapshotBlock : SnapshotBlock)
      (accountBlocks : Option (List AccountBlock))
  | cacheInsertSnapshotBlock (snapshotBlock : SnapshotBlock)
      (accountBlocks : Option (List AccountBlock))
  | stateDBInsertSnapshotBlocks (snapshotBlock : SnapshotBlock)
      (accountBlocks : Option (List AccountBlock))
  | filterUnconfirmedBlocks
  | deleteAccountBlocks (blocks : List AccountBlock)
  | flush
deriving DecidableEq, Repr

/-- `InsertSnapshotBlock`, given the unconfirmed blocks of the cache and the list
`invalidBlocks` that `c.filterUnconfirmedBlocks(true)` answers.  Returns the Go result pair and
the calls made, in order. -/
def InsertSnapshotBlock (unconfirmed invalidBlocks : List AccountBlock)
    (snapshotBlock : SnapshotBlock) :
    (Option (List AccountBlock) × Option Err) × List ChainEffect :=
  match getBlocksToBeConfirmed unconfirmed snapshotBlock.snapshotContent with
  | (_, some err) => ((none, some err), [])
  | (canBeSnappedBlocks, none) =>
    let sbList := [snapshotBlock]
    ((some invalidBlocks, none),
      [.trigger .prepareInsertSbsEvent sbList,
       .blockDBWrite snapshotBlock canBeSnappedBlocks,
       .indexDBInsertSnapshotBlock snapshotBlock canBeSnappedBlocks,
       .cacheInsertSnapshotBlock snapshotBlock canBeSnappedBlocks,
       .stateDBInsertSnapshotBlocks snapshotBlock canBeSnappedBlocks,
       .filterUnconfirmedBlocks]
      ++ (if invalidBlocks.length > 0 then [.deleteAccountBlocks invalidBlocks] else [])
      ++ [.flush, .trigger .InsertSbsEvent sbList])

/-! ## Snapshot pool (`pool/snapshot_pool.go`) -/

/-- A `commonBlock` of the pool, by what `Hash()` and `Height()` answer. -/
structure PoolBlock where
  hash : Hash
  height : Nat
deriving DecidableEq, Repr

/-- The state that `snapshotFork` works on: the disk snapshot chain behind `self.rw`, the chains
of the embedded `BCPool` (among them `current`), the account sub-pools behind `self.pool`, and the
fork version `self.version`.  The first three are kept abstract. -/
structure PoolState (D BC A : Type) where
  disk : D
  chainpool : BC
  accounts : A
  forkVersion : Nat

/-- The methods that `snapshotFork` calls and that are not in the sources, each on the part of
the state it belongs to; a method that can fail returns the state it leaves together with its
error.  `getForkPoint` only reads; on success the source dereferences `forked` unconditionally,
so `forked` is always present, and the first divergent block `k` may be nil. `FC` is the type of
a `*forkedChain`. -/
structure ForkOps (D BC A FC : Type) where
  getForkPoint : BC → FC → FC → Except Err (Option PoolBlock × PoolBlock)
  delToHeight : D → Nat → D × Except Err (List PoolBlock × List (Address × List PoolBlock))
  rollbackCurrent : BC → List PoolBlock → BC × Option Err
  ForkAccounts : A → List (Address × List PoolBlock) → A × Option Err
  CurrentModifyToChain : BC → FC → HashHeight → BC × Option Err

/-- Modelled from the spec: `ForkVersion.Inc`, which is not in the sources, bumps the fork
version by one. -/
def versionInc (v : Nat) : Nat := v + 1

/-- `snapshotFork`: the state it leaves and the error it returns (`none` for nil). -/
def snapshotFork {D BC A FC : Type} (ops : ForkOps D BC A FC) (s : PoolState D BC A)
    (longest current : FC) : PoolState D BC A × Option Err :=
  match ops.getForkPoint s.chainpool longest current with
  | .error err => (s, some err)
  | .ok (none, _) => (s, some .keyPointIsNil)
  | .ok (some keyPoint, forked) =>
    match ops.delToHeight s.disk keyPoint.height with
    | (disk1, .error e) => ({ s with disk := disk1 }, some e)
    | (disk1, .ok (snapshots, accounts)) =>
      let s1 : PoolState D BC A := { s with disk := disk1 }
      let r2 : BC × Option Err :=
        if snapshots.length > 0 then ops.rollbackCurrent s1.chainpool snapshots
        else (s1.chainpool, none)
      let s2 : PoolState D BC A := { s1 with chainpool := r2.1 }
      match r2.2 with
      | some err => (s2, some err)
      | none =>
        let r3 : A × Option Err :=
          if accounts.length > 0 then ops.ForkAccounts s2.accounts accounts
          else (s2.accounts, none)
        let s3 : PoolState D BC A := { s2 with accounts := r3.1 }
        match r3.2 with
        | some err => (s3, some err)
        | none =>
          let r4 := ops.CurrentModifyToChain s3.chainpool longest
            { hash := forked.hash, height := forked.height }
          let s4 : PoolState D BC A := { s3 with chainpool := r4.1 }
          match r4.2 with
          | some err => (s4, some err)
          | none => ({ s4 with forkVersion := versionInc s4.forkVersion }, none)

/-! ## Consensus teller (`consensus/teller.go`) -/

/-- A `core.Vote`, by the producer address it votes for and its balance. -/
structure Vote where
  addr : Address
  balance : Nat
deriving DecidableEq, Repr

/-- Modelled from the spec: the `Cache` behind `voteCache`, whose `Get` and `Add` are not in the
sources, holds the cached address list by snapshot hash: `Add` stores the list under the hash
and `Get` answers the stored list, as a `consensus_db.AddrArr`.  A nil `Cache` is `none`. -/
abbrev VoteCache := Option (Hash → Option (List Address))

/-- The chain reader and the election algorithm that the teller calls and that are not in the
sources.  `Info` is `core.GroupInfo`, `Seed` is `core.SeedInfo`, `Rate` is the success-rate
statistics; the algorithm is built from the group info. -/
structure TellerOps (Info Seed Rate : Type) where
  GetLatestSnapshotHeight : Nat
  CalVotes : Info → HashHeight → Except Err (List Vote)
  GetSuccessRateByHour : Nat → Except Err Rate
  FilterVotes : Info → List Vote → HashHeight → Rate → Seed → List Vote
  ShuffleVotes : Info → List Vote → HashHeight → Seed → List Vote
  ConvertVoteToAddress : List Vote → List Address

/-- `voteCacheGet`. -/
def voteCacheGet (voteCache : VoteCache) (hashes : Hash) : Option (List Address) :=
  match voteCache with
  | none => none
  | some c => c hashes

/-- `voteCachePut`. -/
def voteCachePut (voteCache : VoteCache) (hashes : Hash) (addrArr : List Address) : VoteCache :=
  match voteCache with
  | none => none
  | some c => some (setKey c hashes (some addrArr))

/-- `calVotes`: the returned address list or error, and the vote cache it leaves. -/
def calVotes {Info Seed Rate : Type} (ops : TellerOps Info Seed Rate) (info : Info)
    (voteCache : VoteCache) (hashH : HashHeight) (seed : Seed) (voteIndex : Nat) :
    Except Err (List Address) × VoteCache :=
  match voteCacheGet voteCache hashH.hash with
  | some r => (.ok r, voteCache)
  | none =>
    match ops.CalVotes info hashH with
    | .error err => (.error err, voteCache)
    | .ok votes =>
      match ops.GetSuccessRateByHour voteIndex with
      | .error err => (.error err, voteCache)
      | .ok successRate =>
        let finalVotes := ops.FilterVotes info votes hashH successRate seed
        let finalVotes := ops.ShuffleVotes info finalVotes hashH seed
        let address := ops.ConvertVoteToAddress finalVotes
        (.ok address, voteCachePut voteCache hashH.hash address)

/-- `voteResults`, for the snapshot block `b` by its hash and height. -/
def voteResults {Info Seed Rate : Type} (ops : TellerOps Info Seed Rate) (info : Info)
    (voteCache : VoteCache) (b : HashHeight) (seeds : Seed) (voteIndex : Nat) :
    Except Err (List Address) × VoteCache :=
  if b.height > ops.GetLatestSnapshotHeight then (.error .rollbackHappened, voteCache)
  else calVotes ops info voteCache { height := b.height, hash := b.hash } seeds voteIndex

/-! ## Snapshot chain head (`interval/chain/snapshot_chain.go`) -/

namespace Interval

/-- `common.HashHeight` of the interval package: hashes are strings there. -/
structure HashHeight where
  hash : String
  height : Nat
deriving DecidableEq, Repr

/-- `common.AccountHashH`. -/
structure AccountHashH where
  hashHeight : HashHeight
  addr : String
deriving DecidableEq, Repr

/-- `common.SnapshotBlock` of the interval package, by the arguments of `NewSnapshotBlock`. -/
structure SnapshotBlock where
  height : Nat
  hash : String
  preHash : String
  signer : String
  timestamp : Nat
  accounts : List AccountHashH
deriving DecidableEq, Repr

/-- Modelled from the spec: `store.BlockStore`, which is not in the sources, persists snapshot
blocks and answers reads by height and by hash (a persisted block or nil), and holds the head
pointer. -/
structure BlockStore where
  snapshotByHeight : Nat → Option SnapshotBlock
  snapshotByHash : String → Option SnapshotBlock
  snapshotHead : Option HashHeight

/-- The empty block store. -/
def BlockStore.empty : BlockStore :=
  { snapshotByHeight := fun _ => none
    snapshotByHash := fun _ => none
    snapshotHead := none }

/-- Modelled from the spec: `PutSnapshot` persists the block under its height and its hash. -/
def BlockStore.PutSnapshot (st : BlockStore) (block : SnapshotBlock) : BlockStore :=
  { st with
    snapshotByHeight := setKey st.snapshotByHeight block.height (some block)
    snapshotByHash := setKey st.snapshotByHash block.hash (some block) }

/-- Modelled from the spec: `DeleteSnapshot` removes what is stored under the height and under
the hash. -/
def BlockStore.DeleteSnapshot (st : BlockStore) (hashH : HashHeight) : BlockStore :=
  { st with
    snapshotByHeight := setKey st.snapshotByHeight hashH.height none
    snapshotByHash := setKey st.snapshotByHash hashH.hash none }

/-- Modelled from the spec: `SetSnapshotHead` sets the head pointer (nil clears it). -/
def BlockStore.SetSnapshotHead (st : BlockStore) (hashH : Option HashHeight) : BlockStore :=
  { st with snapshotHead := hashH }

/-- Modelled from the spec: `common.FirstHeight`, which is not in the sources, is the height 1
of the genesis snapshot. -/
def FirstHeight : Nat := 1

/-- `genesisAccounts`. -/
def genesisAccounts : List AccountHashH :=
  [{ hashHeight :=
       { hash := "ccf131dac37a3ec9328290a9ad39c160baee02596daf303ad87d93815fce0a5a",
         height := FirstHeight },
     addr := "viteshan" },
   { hashHeight :=
       { hash := "904196e430c52d0687064a1723fa5124da7708e7e82d75924a846c4e84ac49c3",
         height := FirstHeight },
     addr := "jie" }]

/-- `genesisSnapshot`; the timestamp is the Unix time in seconds. -/
def genesisSnapshot : SnapshotBlock :=
  { height := FirstHeight
    hash := "a601ad0af8123a9dd85a201273276a82e41d6cc1e708bd62ea432dea76038639"
    preHash := ""
    signer := "viteshan"
    timestamp := 1533550878
    accounts := genesisAccounts }

/-- `snapshotChain`. -/
structure snapshotChain where
  head : Option SnapshotBlock
  store : BlockStore

/-- `newSnapshotChain`; `none` when the source panics (the stored genesis is missing, so that
nil is dereferenced, or its hash differs from the embedded one). -/
def newSnapshotChain (store : BlockStore) : Option snapshotChain :=
  match store.snapshotHead with
  | some head =>
    match store.snapshotByHeight genesisSnapshot.height with
    | none => none
    | some storeGenesis =>
      if storeGenesis.hash ≠ genesisSnapshot.hash then none
      else some { head := store.snapshotByHeight head.height, store := store }
  | none =>
    some
      { head := some genesisSnapshot
        store := (store.PutSnapshot genesisSnapshot).SetSnapshotHead
          (some { hash := genesisSnapshot.hash, height := genesisSnapshot.height }) }

/-- `Head`. -/
def snapshotChain.Head (snapCh : snapshotChain) : Option SnapshotBlock :=
  snapCh.head

/-- `insertChain`; it always returns a nil error. -/
def snapshotChain.insertChain (snapCh : snapshotChain) (block : SnapshotBlock) : snapshotChain :=
  { head := some block
    store := (snapCh.store.PutSnapshot block).SetSnapshotHead
      (some { hash := block.hash, height := block.height }) }

/-- `removeChain`; it always returns a nil error. -/
def snapshotChain.removeChain (snapCh : snapshotChain) (block : SnapshotBlock) : snapshotChain :=
  let head := snapCh.store.snapshotByHash block.preHash
  let store1 := snapCh.store.DeleteSnapshot { hash := block.hash, height := block.height }
  { head := head
    store :=
      match head with
      | none => store1.SetSnapshotHead none
      | some h => store1.SetSnapshotHead (some { hash := h.hash, height := h.height }) }

end Interval

/-! ## Account block insertion (`chain/insert.go`) -/

/-- How a call ends: it returns a value, the process terminates, or it panics. -/
inductive CallEnd (α : Type) where
  | returned (a : α)
  | terminated
  | panicked
deriving DecidableEq, Repr

/-- Modelled from the spec: `log15.Logger.Crit`, which is not in the sources, logs at crit and
the process terminates ("failure here is fatal (logged at crit, process terminates)"). -/
def logCritExits : Bool := true

/-- Names of the events that `InsertAccountBlock` fires. -/
inductive AbEventName where
  | prepareInsertAbsEvent
  | insertAbsEvent
deriving DecidableEq, Repr

/-- The calls `InsertAccountBlock` makes on its collaborators, none of which is in the
sources. -/
inductive AbEffect where
  | trigger (name : AbEventName) (vmAbList : List AccountBlock)
  | cacheInsertAccountBlock (accountBlock : AccountBlock)
  | indexDBInsertAccountBlock (accountBlock : AccountBlock)
  | stateDBWrite (accountBlock : AccountBlock)
  | logCrit
deriving DecidableEq, Repr

/-- `InsertAccountBlock`, given what `c.indexDB.InsertAccountBlock` and `c.stateDB.Write`
answer (`none` for a nil error) and whether `c.log.Crit` ends the process.  Returns how the call
ends (the returned error is always nil) and the calls made, in order. -/
def InsertAccountBlock (critExits : Bool) (indexErr stateErr : Option Err)
    (accountBlock : AccountBlock) : CallEnd (Option Err) × List AbEffect :=
  let vmAbList := [accountBlock]
  let steps1 : List AbEffect :=
    [.trigger .prepareInsertAbsEvent vmAbList, .cacheInsertAccountBlock accountBlock,
     .indexDBInsertAccountBlock accountBlock]
  let steps2 := if indexErr.isSome then steps1 ++ [.logCrit] else steps1
  if indexErr.isSome && critExits then (.terminated, steps2)
  else
    let steps3 := steps2 ++ [.stateDBWrite accountBlock]
    let steps4 := if stateErr.isSome then steps3 ++ [.logCrit] else steps3
    if stateErr.isSome && critExits then (.terminated, steps4)
    else (.returned none, steps4 ++ [.trigger .insertAbsEvent vmAbList])

/-! ## Verification failure in the snapshot pool (`pool/snapshot_pool.go`) -/

/-- The values of `verifier.VerifyResult` that the pool tells apart; any other value of the
integer type is `other`. -/
inductive VerifyResult where
  | FAIL
  | PENDING
  | SUCCESS
  | other (code : Nat)
deriving DecidableEq, Repr

/-- `forkAccounts`: the `ForkAccountTo` requests it makes on the account pool, one per entry of
`accounts`, and the fork version after `self.version.Inc()`. -/
def forkAccounts (accounts : List (Address × HashHeight)) (forkVersion : Nat) :
    List (Address × HashHeight) × Nat :=
  (accounts, versionInc forkVersion)

/-- `insertVerifyFail`, for the snapshot content of `b.block` and the lookup `results[k]` of
`stat.results` (a Go map lookup always answers a value).  Returns the `ForkAccountTo` requests
made and the fork version it leaves.  Go leaves the order of the requests unspecified; the model
keeps the order of the content. -/
def insertVerifyFail (snapshotContent : SnapshotContent) (results : Address → VerifyResult)
    (forkVersion : Nat) : List (Address × HashHeight) × Nat :=
  let accounts := snapshotContent.filter (fun e => decide (results e.1 = .FAIL))
  if accounts.length > 0 then forkAccounts accounts forkVersion else ([], forkVersion)

/-! ## Lifecycle of the token index (`chain/index/filter_token.go`) -/

/-- `STOP`. -/
def STOP : Nat := 1

/-- `START`. -/
def START : Nat := 2

/-- The lifecycle fields of `FilterTokenIndex`: `status`; `ticker` (`none` for nil, `some true`
while it runs, `some false` once stopped); `terminal` (`none` for the nil channel, `some false`
for an open channel, `some true` for a closed one); the counter of `wg`. -/
structure Lifecycle where
  status : Nat
  ticker : Option Bool
  terminal : Option Bool
  wg : Nat
deriving DecidableEq, Repr

/-- `NewFilterTokenIndex`, given what `initDb` answers: the struct literal sets `status: STOP` and
leaves `ticker` and `terminal` at their zero values. -/
def NewFilterTokenIndex (initDbErr : Option Err) : Except Err Lifecycle :=
  match initDbErr with
  | some err => .error err
  | none => .ok { status := STOP, ticker := none, terminal := none, wg := 0 }

/-- `Start`, given what `checkAndInitData` and the initial `build` answer (an error of `build` is
only logged) and whether `fti.log.Crit` ends the process.  The worker goroutine only receives
from `ticker.C` and `terminal`; it assigns none of the lifecycle fields. -/
def Start (critExits : Bool) (checkErr _buildErr : Option Err) (fti : Lifecycle) :
    CallEnd Lifecycle :=
  if fti.status = START then .returned fti
  else if checkErr.isSome && critExits then .terminated
  else .returned { fti with ticker := some true, wg := fti.wg + 1, status := START }

/-- `Stop`.  `fti.ticker.Stop()` dereferences the ticker; `close(fti.terminal)` panics on a nil
channel and on a closed channel; once the channel is closed the worker returns and `wg.Wait()`
comes back. -/
def Stop (fti : Lifecycle) : CallEnd Lifecycle :=
  if fti.status = STOP then .returned fti
  else
    match fti.ticker with
    | none => .panicked
    | some _ =>
      match fti.terminal with
      | none => .panicked
      | some true => .panicked
      | some false =>
        .returned { fti with ticker := some false, terminal := some true, wg := 0, status := STOP }

/-! ## Insertion walk of the snapshot pool (`pool/snapshot_pool.go`) -/

/-- The methods that `snapshotTryInsert` calls and that are not in the sources, on the pool state
`S` (the current chain with its tail and head heights, the disk chain, the fork version and the
version tags of the blocks).  `getBlock` answers nil as `none`.  `verifySnapshot` answers the
stat together with the state at the end of the verification, in which the fork version may have
moved.  `Stat` is `poolSnapshotVerifyStat`. -/
structure TryInsertOps (S Stat : Type) where
  tailHeight : S → Nat
  headHeight : S → Nat
  getBlock : S → Nat → Option PoolBlock
  checkForkVersion : S → PoolBlock → Bool
  resetForkVersion : S → PoolBlock → S
  verifySnapshot : S → PoolBlock → Stat × S
  verifyResult : Stat → VerifyResult
  writeToChain : S → PoolBlock → S × Option Err
  afterInsert : S → PoolBlock → S

/-- How the walk of `snapshotTryInsert` ends: it returns its pair (`none` for `nil, nil`), it
panics on a nil block, the process ends in `Crit`, or the fuel of the model runs out. -/
inductive WalkEnd (Stat : Type) where
  | returned (pair : Option (Stat × PoolBlock))
  | panicked
  | terminated
  | outOfFuel
deriving DecidableEq, Repr

/-- A block that the walk verified: the block, its stat and the state after the verification. -/
structure Visit (S Stat : Type) where
  state : S
  block : PoolBlock
  stat : Stat
deriving DecidableEq, Repr

/-- What a walk did: how it ended, the state it left, the blocks it verified and the blocks it
passed to `writeToChain`, both in order. -/
structure WalkResult (S Stat : Type) where
  ending : WalkEnd Stat
  state : S
  visited : List (Visit S Stat)
  writes : List (Visit S Stat)
deriving DecidableEq, Repr

/-- One iteration of the loop of `snapshotTryInsert`, on the block that `getBlock` answered:
the verified block, whether it was passed to `writeToChain`, the state the iteration leaves, and
how the walk ends there (`none` when the loop goes on with the next height). -/
structure StepResult (S Stat : Type) where
  visit : Visit S Stat
  wrote : Bool
  state : S
  ending : Option (WalkEnd Stat)

/-- The part of the loop body of `snapshotTryInsert` after `verifySnapshot`, on the stat and the
state that the verification left: the second fork-version check and the `switch` on the
result. -/
def tryInsertVerdict {S Stat : Type} (critExits : Bool) (ops : TryInsertOps S Stat) (s2 : S)
    (block : PoolBlock) (stat : Stat) : StepResult S Stat :=
  let visit : Visit S Stat := { state := s2, block := block, stat := stat }
  if !ops.checkForkVersion s2 block then
    { visit := visit, wrote := false, state := ops.resetForkVersion s2 block, ending := none }
  else
    match ops.verifyResult stat with
    | .PENDING =>
      { visit := visit, wrote := false, state := s2,
        ending := some (.returned (some (stat, block))) }
    | .FAIL =>
      { visit := visit, wrote := false, state := s2,
        ending := some (.returned (some (stat, block))) }
    | .SUCCESS =>
      if block.height = (ops.tailHeight s2 + 1) % 2 ^ 64 then
        match ops.writeToChain s2 block with
        | (s3, some _) =>
          { visit := visit, wrote := true, state := s3, ending := some (.returned none) }
        | (s3, none) =>
          { visit := visit, wrote := true, state := ops.afterInsert s3 block, ending := none }
      else { visit := visit, wrote := false, state := s2, ending := some (.returned none) }
    | .other _ =>
      { visit := visit, wrote := false, state := s2,
        ending := some (if critExits then .terminated else .returned none) }

/-- The body of the loop of `snapshotTryInsert`: the first fork-version check, the verification,
and the rest. -/
def tryInsertStep {S Stat : Type} (critExits : Bool) (ops : TryInsertOps S Stat) (s : S)
    (block : PoolBlock) : StepResult S Stat :=
  let s1 := if !ops.checkForkVersion s block then ops.resetForkVersion s block else s
  tryInsertVerdict critExits ops (ops.verifySnapshot s1 block).2 block
    (ops.verifySnapshot s1 block).1

/-- The loop `for i := minH; i <= headH; i++` of `snapshotTryInsert`; `i` is a `uint64`. -/
def tryInsertLoop {S Stat : Type} (critExits : Bool) (ops : TryInsertOps S Stat) (headH : Nat) :
    Nat → Nat → S → WalkResult S Stat
  | 0, i, s =>
    if i ≤ headH then { ending := .outOfFuel, state := s, visited := [], writes := [] }
    else { ending := .returned none, state := s, visited := [], writes := [] }
  | fuel + 1, i, s =>
    if i ≤ headH then
      match ops.getBlock s i with
      | none => { ending := .panicked, state := s, visited := [], writes := [] }
      | some block =>
        let st := tryInsertStep critExits ops s block
        match st.ending with
        | some e =>
          { ending := e, state := st.state, visited := [st.visit],
            writes := if st.wrote then [st.visit] else [] }
        | none =>
          let r := tryInsertLoop critExits ops headH fuel ((i + 1) % 2 ^ 64) st.state
          { r with
            visited := st.visit :: r.visited
            writes := if st.wrote then st.visit :: r.writes else r.writes }
    else { ending := .returned none, state := s, visited := [], writes := [] }

/-- `snapshotTryInsert`: the walk from `current.tailHeight + 1` to `current.headHeight`. -/
def snapshotTryInsert {S Stat : Type} (critExits : Bool) (ops : TryInsertOps S Stat)
    (fuel : Nat) (s : S) : WalkResult S Stat :=
  tryInsertLoop critExits ops (ops.headHeight s) fuel ((ops.tailHeight s + 1) % 2 ^ 64) s

/-- A verified block whose fork version is still current after the verification and whose result
is `PENDING` or `FAIL`. -/
def Visit.stops {S Stat : Type} (ops : TryInsertOps S Stat) (v : Visit S Stat) : Prop :=
  ops.checkForkVersion v.state v.block = true ∧
    (ops.verifyResult v.stat = .PENDING ∨ ops.verifyResult v.stat = .FAIL)

/-- A verified block whose fork version is still current, whose result is `SUCCESS` and whose
height is not the tail height plus one. -/
def Visit.outOfOrder {S Stat : Type} (ops : TryInsertOps S Stat) (v : Visit S Stat) : Prop :=
  ops.checkForkVersion v.state v.block = true ∧ ops.verifyResult v.stat = .SUCCESS ∧
    v.block.height ≠ (ops.tailHeight v.state + 1) % 2 ^ 64

/-! ## Build pass of the token index (`chain/index/filter_token.go`) -/

/-- The chain as `build` uses it: the methods of `Chain`, the event log and the accounts.
`GetEvent` answers the event type and the hash list; `GetAccount` answers the account id of the
account, `none` for a nil account. -/
structure EventChain where
  chain : Chain
  GetLatestBlockEventId : Except Err Nat
  GetEvent : Nat → Except Err (Nat × List Hash)
  GetAccount : Address → Except Err (Option Nat)

/-- The store of the index builder: the three key spaces of the index and the `CONSUME_ID` key
(`none` when the key is not found). -/
structure BuilderStore where
  index : IndexDB
  consumeId : Option Nat

/-- `getConsumeId`; `none` stands for `leveldb.ErrNotFound`. -/
def getConsumeId (store : BuilderStore) : Option Nat :=
  store.consumeId

/-- `updateConsumeId`. -/
def updateConsumeId (store : BuilderStore) (eventId : Nat) : BuilderStore :=
  { store with consumeId := some eventId }

/-- How a build pass ends when it does not return nil: it returns an error, it panics (on a nil
account), or the fuel of the model runs out. -/
inductive Abort where
  | failed (err : Err)
  | panicked
  | outOfFuel
deriving DecidableEq, Repr

/-- `unsavedBlocks[addr] = append(unsavedBlocks[addr], block)`, the map kept as an association
list in order of first insertion. -/
def unsavedAppend : List (Address × List AccountBlock) → Address → AccountBlock →
    List (Address × List AccountBlock)
  | [], addr, block => [(addr, [block])]
  | (a, blocks) :: rest, addr, block =>
    if a = addr then (a, blocks ++ [block]) :: rest
    else (a, blocks) :: unsavedAppend rest addr block

/-- The `case byte(1)` loop of `build` over the hashes of an add event; the set
`notFoundBlocks` is a list. -/
def addEvent (chain : Chain) : List Hash → List (Address × List AccountBlock) → List Hash →
    Except Err (List (Address × List AccountBlock) × List Hash)
  | [], unsavedBlocks, notFoundBlocks => .ok (unsavedBlocks, notFoundBlocks)
  | blockHash :: rest, unsavedBlocks, notFoundBlocks =>
    match chain.GetAccountBlockByHash blockHash with
    | .error err => .error err
    | .ok none => addEvent chain rest unsavedBlocks (blockHash :: notFoundBlocks)
    | .ok (some block) =>
      addEvent chain rest (unsavedAppend unsavedBlocks block.accountAddress block)
        notFoundBlocks

/-- What the loop over a delete event did: how it aborted (`none` when it ran to the end), the
index and the not-found set it left, and the hashes it called `deleteHash` with. -/
structure DeleteResult where
  abort : Option Abort
  index : IndexDB
  notFoundBlocks : List Hash
  deleted : List Hash

/-- The `case byte(2)` loop of `build` over the hashes of a delete event. -/
def deleteEvent (walkFuel : Nat) (chain : Chain) : List Hash → IndexDB → List Hash →
    DeleteResult
  | [], db, notFoundBlocks =>
    { abort := none, index := db, notFoundBlocks := notFoundBlocks, deleted := [] }
  | hash :: rest, db, notFoundBlocks =>
    if hash ∈ notFoundBlocks then
      deleteEvent walkFuel chain rest db (notFoundBlocks.filter (fun x => decide (x ≠ hash)))
    else
      match deleteHash walkFuel chain db hash with
      | none =>
        { abort := some .outOfFuel, index := db, notFoundBlocks := notFoundBlocks,
          deleted := [hash] }
      | some (.error err) =>
        { abort := some (.failed err), index := db, notFoundBlocks := notFoundBlocks,
          deleted := [hash] }
      | some (.ok db2) =>
        let r := deleteEvent walkFuel chain rest db2 notFoundBlocks
        { r with deleted := hash :: r.deleted }

/-- The `for addr, blocks := range unsavedBlocks` loop of `build`.  Go leaves the order of a map
range unspecified; the model ranges in order of first insertion. -/
def flushUnsaved (ec : EventChain) : List (Address × List AccountBlock) → IndexDB →
    Option Abort × IndexDB
  | [], db => (none, db)
  | (addr, blocks) :: rest, db =>
    match ec.GetAccount addr with
    | .error err => (some (.failed err), db)
    | .ok none => (some .panicked, db)
    | .ok (some accountId) =>
      match addBlocks ec.chain db accountId blocks with
      | .error err => (some (.failed err), db)
      | .ok db2 => flushUnsaved ec rest db2

/-- The variables of the loop of `build`. -/
structure BuildState where
  store : BuilderStore
  unsavedBlocks : List (Address × List AccountBlock)
  notFoundBlocks : List Hash
  eventNum : Nat

/-- What one iteration of the loop of `build` did: how it aborted (`none` when the loop goes
on), the variables it left, and the hashes it called `deleteHash` with. -/
structure BuildStep where
  abort : Option Abort
  state : BuildState
  deleted : List Hash

/-- The `switch eventType` of `build`. -/
def applyEvent (walkFuel : Nat) (ec : EventChain) (eventType : Nat) (blockHashList : List Hash)
    (st : BuildState) : BuildStep :=
  if eventType = 1 then
    match addEvent ec.chain blockHashList st.unsavedBlocks st.notFoundBlocks with
    | .error err => { abort := some (.failed err), state := st, deleted := [] }
    | .ok (unsavedBlocks, notFoundBlocks) =>
      { abort := none
        state := { st with unsavedBlocks := unsavedBlocks, notFoundBlocks := notFoundBlocks }
        deleted := [] }
  else if eventType = 2 then
    let r := deleteEvent walkFuel ec.chain blockHashList st.store.index st.notFoundBlocks
    { abort := r.abort
      state := { st with store := { st.store with index := r.index },
                         notFoundBlocks := r.notFoundBlocks }
      deleted := r.deleted }
  else { abort := none, state := st, deleted := [] }

/-- The end of the loop body of `build`: `eventNum++` and, at the last event or at a full batch,
the flush of the unsaved blocks and the update of the consume id. -/
def endOfEvent (ec : EventChain) (EventNumPerBatch latestBeId eventId : Nat) (st : BuildState) :
    Option Abort × BuildState :=
  let eventNum := (st.eventNum + 1) % 2 ^ 64
  if eventId ≥ latestBeId ∨ eventNum ≥ EventNumPerBatch then
    match flushUnsaved ec st.unsavedBlocks st.store.index with
    | (some abort, db) =>
      (some abort, { st with store := { st.store with index := db }, eventNum := eventNum })
    | (none, db) =>
      (none,
        { store := updateConsumeId { st.store with index := db } eventId
          unsavedBlocks := []
          notFoundBlocks := st.notFoundBlocks
          eventNum := 0 })
  else (none, { st with eventNum := eventNum })

/-- The body of the loop of `build`, for the event that `GetEvent` answered. -/
def buildStep (walkFuel : Nat) (ec : EventChain) (EventNumPerBatch latestBeId eventId : Nat)
    (eventType : Nat) (blockHashList : List Hash) (st : BuildState) : BuildStep :=
  let r := applyEvent walkFuel ec eventType blockHashList st
  match r.abort with
  | some _ => r
  | none =>
    let e := endOfEvent ec EventNumPerBatch latestBeId eventId r.state
    { abort := e.1, state := e.2, deleted := r.deleted }

/-- What a build pass did: how it ended (`none` when it returned nil), the store it left, the
ids of the events it fetched and the hashes it called `deleteHash` with, both in order. -/
structure BuildResult where
  ending : Option Abort
  store : BuilderStore
  fetched : List Nat
  deleted : List Hash

/-- The loop `for eventId := consumeId; eventId <= latestBeId; eventId++` of `build`; `eventId`
is a `uint64`. -/
def buildLoop (walkFuel : Nat) (ec : EventChain) (EventNumPerBatch latestBeId : Nat) :
    Nat → Nat → BuildState → BuildResult
  | 0, eventId, st =>
    if eventId ≤ latestBeId then
      { ending := some .outOfFuel, store := st.store, fetched := [], deleted := [] }
    else { ending := none, store := st.store, fetched := [], deleted := [] }
  | fuel + 1, eventId, st =>
    if eventId ≤ latestBeId then
      match ec.GetEvent eventId with
      | .error err =>
        { ending := some (.failed err), store := st.store, fetched := [], deleted := [] }
      | .ok (eventType, blockHashList) =>
        let step := buildStep walkFuel ec EventNumPerBatch latestBeId eventId eventType
          blockHashList st
        match step.abort with
        | some abort =>
          { ending := some abort, store := step.state.store, fetched := [eventId],
            deleted := step.deleted }
        | none =>
          let r := buildLoop walkFuel ec EventNumPerBatch latestBeId fuel
            ((eventId + 1) % 2 ^ 64) step.state
          { r with fetched := eventId :: r.fetched, deleted := step.deleted ++ r.deleted }
    else { ending := none, store := st.store, fetched := [], deleted := [] }

/-- `build`, with the fuel of its loop and the fuel of the walks of `deleteHash`. -/
def build (fuel walkFuel : Nat) (ec : EventChain) (EventNumPerBatch : Nat)
    (store : BuilderStore) : BuildResult :=
  let consumeId :=
    match getConsumeId store with
    | none => 1
    | some c => c
  match ec.GetLatestBlockEventId with
  | .error err => { ending := some (.failed err), store := store, fetched := [], deleted := [] }
  | .ok latestBeId =>
    buildLoop walkFuel ec EventNumPerBatch latestBeId fuel consumeId
      { store := store, unsavedBlocks := [], notFoundBlocks := [], eventNum := 0 }

/-! ## Scenarios and concrete inputs -/

/-- The round trip of the token index: `addBlocks(accountId, [b])` and, when the add returned
nil, `deleteHash(b.hash)` on the store that the add left.  An error of the add ends the round
trip: it is returned and `deleteHash` is not run. -/
def addThenDelete (fuel : Nat) (chain : Chain) (db : IndexDB) (accountId : Nat)
    (b : AccountBlock) : Option (Except Err IndexDB) :=
  match addBlocks chain db accountId [b] with
  | .error e => some (.error e)
  | .ok db1 => deleteHash fuel chain db1 b.hash

/-- The store of a run that ended without error. -/
def storeOf : Option (Except Err IndexDB) → Option IndexDB
  | some (.ok d) => some d
  | _ => none

/-- The index in which hash 2 points at hash 1, hash 1 has a null predecessor and hash 2 is the
head of `(1, 7)`: the store after `addBlocks` of two send blocks of token 7. -/
def twoBlockIndex : IndexDB :=
  write IndexDB.empty
    [.putBlockList 1 none, .putBlockList 2 (some 1), .putMeta 1 7 2, .putHead 2 1 7]

/-- A chain that knows no block and has no genesis account block. -/
def emptyChain : Chain :=
  { IsGenesisAccountBlock := fun _ => false
    GetAccountBlockByHash := fun _ => .ok none
    IsAccountBlockExisted := fun _ => .ok false }

/-- A chain on which every hash exists. -/
def fullChain : Chain :=
  { IsGenesisAccountBlock := fun _ => false
    GetAccountBlockByHash := fun _ => .ok none
    IsAccountBlockExisted := fun _ => .ok true }

/-- The token of a block in the words of the specification (section 4.2, `addBlocks`): the zero
token for a genesis block, its own `tokenId` for a send block, the `tokenId` of the referenced
send block for a receive block; `none` when the chain does not return the referenced send
block. -/
def specTokenId (chain : Chain) (b : AccountBlock) : Option TokenTypeId :=
  if chain.IsGenesisAccountBlock b then some 0
  else if b.isSendBlock then some b.tokenId
  else
    match chain.GetAccountBlockByHash b.fromBlockHash with
    | .ok (some sendBlock) => some sendBlock.tokenId
    | _ => none

/-- A send block of account address 1 with the given hash, height and token. -/
def sendBlock (hash height tokenId : Nat) : AccountBlock :=
  { hash := hash, accountAddress := 1, height := height, tokenId := tokenId,
    isSendBlock := true, fromBlockHash := 0 }

/-- The chain reached from `h` by following `BLOCK_LIST_BY_TOKEN` prev-pointers, `h` first, down
to the hash with a null predecessor; `none` when `fuel` steps do not reach a null predecessor. -/
def prevChain (db : IndexDB) : Nat → Hash → Option (List Hash)
  | 0, _ => none
  | fuel + 1, h =>
    match getPrevHash db h with
    | none => some [h]
    | some p => (prevChain db fuel p).map (fun l => h :: l)

/-- The hash of the last block of `blocks` whose token is `T`, when `tok` gives the tokens. -/
def lastOfToken (tok : AccountBlock → TokenTypeId) (T : TokenTypeId)
    (blocks : List AccountBlock) : Option Hash :=
  ((blocks.filter (fun b => tok b = T)).getLast?).map (fun b => b.hash)

/-- The hashes of the blocks of `blocks` whose token is `T`, newest (last) first. -/
def hashesOfToken (tok : AccountBlock → TokenTypeId) (T : TokenTypeId)
    (blocks : List AccountBlock) : List Hash :=
  ((blocks.filter (fun b => tok b = T)).reverse).map (fun b => b.hash)

/-- A block that the snapshot content confirms: its address is in `sc` and its height is at most
the height pinned for that address. -/
def toBeConfirmed (sc : SnapshotContent) (b : AccountBlock) : Bool :=
  match scGet sc b.accountAddress with
  | some hashHeight => decide (b.height ≤ hashHeight.height)
  | none => false

/-- A block at exactly the height that `sc` pins for its address. -/
def atPinnedHeight (sc : SnapshotContent) (b : AccountBlock) : Bool :=
  match scGet sc b.accountAddress with
  | some hashHeight => decide (b.height = hashHeight.height)
  | none => false

/-- A block of address `addr` at height `height`, a send block of token 7. -/
def blockAt (hash addr height : Nat) : AccountBlock :=
  { hash := hash, accountAddress := addr, height := height, tokenId := 7,
    isSendBlock := true, fromBlockHash := 0 }

/-- Modelled from the spec: a pool whose disk chain is the list of its snapshot blocks, whose
chain pool is the id of `current` with its tail, and whose account pool is the list of accounts
asked to fork.  `delToHeight` rolls the disk chain back below the height and answers the
rolled-back snapshots; `rollbackCurrent` fails when `rollbackFails` is set;
`CurrentModifyToChain` points `current` to the chain with the given tail.  The fork point is the
block of hash 11 at height 1 with first divergent block `keyPoint`. -/
def demoOps (keyPoint : Option PoolBlock) (rollbackFails : Bool) :
    ForkOps (List PoolBlock) (Nat × Option HashHeight) (List Address) Nat :=
  { getForkPoint := fun _ _ _ => .ok (keyPoint, { hash := 11, height := 1 })
    delToHeight := fun disk h =>
      (disk.filter (fun b => decide (b.height < h)),
        .ok (disk.filter (fun b => decide (h ≤ b.height)), []))
    rollbackCurrent := fun bc _ => if rollbackFails then (bc, some (.poolErr 1)) else (bc, none)
    ForkAccounts := fun a accounts => (a ++ accounts.map Prod.fst, none)
    CurrentModifyToChain := fun _ longest tail => ((longest, some tail), none) }

/-- A pool state: three snapshots on disk, `current` is chain 1, fork version 4. -/
def demoPool : PoolState (List PoolBlock) (Nat × Option HashHeight) (List Address) :=
  { disk := [{ hash := 11, height := 1 }, { hash := 22, height := 2 }, { hash := 33, height := 3 }]
    chainpool := (1, none)
    accounts := []
    forkVersion := 4 }

namespace Interval

/-- The store that holds the genesis snapshot and points its head at it. -/
def genesisStore : BlockStore :=
  (BlockStore.empty.PutSnapshot genesisSnapshot).SetSnapshotHead
    (some { hash := genesisSnapshot.hash, height := genesisSnapshot.height })

/-- A snapshot block of the given height and hash on top of the block of hash `preHash`. -/
def blockOn (height : Nat) (hash preHash : String) : SnapshotBlock :=
  { height := height, hash := hash, preHash := preHash, signer := "viteshan",
    timestamp := 1533550879, accounts := [] }

end Interval

/-- The store that `addBlocks` leaves on the empty index for account 1 and the list that names
the send block of hash 1 and token 7 twice. -/
def duplicateIndex : IndexDB :=
  write IndexDB.empty
    [.putBlockList 1 none, .putBlockList 1 (some 1), .putMeta 1 7 1, .putHead 1 1 7]

/-- Modelled from the spec: a pool whose state is the pair of the pool's fork version and the
version tag of the pool's one block (hash 11, height 1, with tail height 0 and head height 1).
The fork version moves by `bump` while the block is verified, and the verification result is the
given one. -/
def demoTryOps (bump : Nat) (result : VerifyResult) : TryInsertOps (Nat × Nat) VerifyResult :=
  { tailHeight := fun _ => 0
    headHeight := fun _ => 1
    getBlock := fun _ i => some { hash := 10 + i, height := i }
    checkForkVersion := fun s _ => decide (s.1 = s.2)
    resetForkVersion := fun s _ => (s.1, s.1)
    verifySnapshot := fun s _ => (result, (s.1 + bump, s.2))
    verifyResult := fun stat => stat
    writeToChain := fun s _ => (s, none)
    afterInsert := fun s _ => s }

/-- A chain with two add events: event 1 adds hash 1 and event 2 adds hash 2, the send blocks
of heights 1 and 2 and token 7 of address 1, whose account id is 1. -/
def twoAddChain : EventChain :=
  { chain :=
      { IsGenesisAccountBlock := fun _ => false
        GetAccountBlockByHash := fun h =>
          if h = 1 then .ok (some (sendBlock 1 1 7))
          else if h = 2 then .ok (some (sendBlock 2 2 7))
          else .ok none
        IsAccountBlockExisted := fun h => .ok (decide (h = 1 ∨ h = 2)) }
    GetLatestBlockEventId := .ok 2
    GetEvent := fun id => if id = 1 then .ok (1, [1]) else if id = 2 then .ok (1, [2])
      else .error (.chainErr 0)
    GetAccount := fun _ => .ok (some 1) }

/-- The empty store of the index builder. -/
def BuilderStore.empty : BuilderStore :=
  { index := IndexDB.empty, consumeId := none }

theorem setKey_same {κ : Type} [DecidableEq κ] {β : Type} (m : κ → β) (k : κ) (v : β) :
    setKey m k v k = v := by
  simp [setKey]

theorem setKey_other {κ : Type} [DecidableEq κ] {β : Type} (m : κ → β) (k x : κ) (v : β)
    (h : x ≠ k) : setKey m k v x = m x := by
  simp [setKey, h]

theorem setKey_idem {κ : Type} [DecidableEq κ] {β : Type} (m : κ → β) (k : κ) (v : β)
    (h : m k = v) : setKey m k v = m := by
  funext x
  by_cases hx : x = k
  · subst hx; simp [setKey, h]
  · simp [setKey, hx]

theorem setKey_setKey {κ : Type} [DecidableEq κ] {β : Type} (m : κ → β) (k : κ) (v w : β) :
    setKey (setKey m k v) k w = setKey m k w := by
  funext x
  by_cases hx : x = k <;> simp [setKey, hx]

/-- C1 (counterexample): on the empty index, adding the send block with hash 1 to account 1 and
then deleting hash 1 returns without error, but the store is not the empty index again: hash 1,
which had no `BLOCK_LIST_BY_TOKEN` entry before the add, still has the entry (with an empty
value) that the add wrote. -/
theorem addThenDelete_keeps_blockList_entry :
    (storeOf (addThenDelete 1 emptyChain IndexDB.empty 1 (sendBlock 1 1 7))).map
        (fun d => d.blockListByToken 1) = some (some none) ∧
      IndexDB.empty.blockListByToken 1 = none := by
  constructor <;> rfl

theorem addBlocks_single_ok (chain : Chain) (db : IndexDB) (accountId : Nat) (b : AccountBlock)
    (tok : TokenTypeId) (hnew : isExisted db b.hash = false)
    (htok : getBlockTokenId chain b = .ok tok) :
    addBlocks chain db accountId [b] =
      .ok (write db [.putBlockList b.hash (getHeadHash db accountId tok),
        .putMeta accountId tok b.hash, .putHead b.hash accountId tok]) := by
  simp [addBlocks, addBlocksLoop, hnew, htok, stagingGet, stagingSet, saveHeads, saveHeadHash]

theorem addBlocks_single_error (chain : Chain) (db : IndexDB) (accountId : Nat)
    (b : AccountBlock) (e : Err) (hnew : isExisted db b.hash = false)
    (htok : getBlockTokenId chain b = .error e) :
    addBlocks chain db accountId [b] = .error e := by
  simp [addBlocks, addBlocksLoop, hnew, htok]

theorem getBlockTokenId_of_specTokenId (chain : Chain) (b : AccountBlock) (tok : TokenTypeId)
    (h : specTokenId chain b = some tok) : getBlockTokenId chain b = .ok tok := by
  unfold specTokenId at h
  unfold getBlockTokenId
  split
  · rename_i hg
    rw [if_pos hg] at h
    cases h
    rfl
  · rename_i hg
    rw [if_neg hg] at h
    split
    · rename_i hs
      rw [if_pos hs] at h
      cases h
      rfl
    · rename_i hs
      rw [if_neg hs] at h
      cases hget : chain.GetAccountBlockByHash b.fromBlockHash with
      | error e => rw [hget] at h; cases h
      | ok o =>
        cases o with
        | none => rw [hget] at h; cases h
        | some sendBlock =>
          rw [hget] at h
          cases h
          rfl

theorem getBlockTokenId_error_of_specTokenId (chain : Chain) (b : AccountBlock)
    (h : specTokenId chain b = none) : ∃ e, getBlockTokenId chain b = .error e := by
  unfold specTokenId at h
  unfold getBlockTokenId
  split
  · rename_i hg
    rw [if_pos hg] at h
    cases h
  · rename_i hg
    rw [if_neg hg] at h
    split
    · rename_i hs
      rw [if_pos hs] at h
      cases h
    · rename_i hs
      rw [if_neg hs] at h
      cases hget : chain.GetAccountBlockByHash b.fromBlockHash with
      | error e => exact ⟨e, rfl⟩
      | ok o =>
        cases o with
        | none => exact ⟨.sendBlockIsNil, rfl⟩
        | some sendBlock => rw [hget] at h; cases h

/-- C1 (amended): let `b` have neither a `BLOCK_LIST_BY_TOKEN` nor a `HEAD_HASH` entry, let the
chain report the previous head of `b`'s token (if any) as existing, and let that head's
`HEAD_HASH` entry be `(accountId, token)`.  When the token of `b` resolves,
`addBlocks(accountId, [b])` followed by `deleteHash(b.hash)` returns without error (for every
fuel of at least one step), leaves `ACCOUNT_TOKEN_META` and `HEAD_HASH` equal to what they were
before the add, and leaves `BLOCK_LIST_BY_TOKEN` unchanged at every key other than `b.hash`; at
`b.hash` the entry written by the add (the previous head) stays.  When the token of `b` does not
resolve, `addBlocks` returns its error and the round trip ends there, with nothing written. -/
theorem addBlocks_deleteHash_roundtrip (fuel : Nat) (chain : Chain) (db : IndexDB)
    (accountId : Nat) (b : AccountBlock)
    (hnew : isExisted db b.hash = false)
    (hhead : db.headHash b.hash = none)
    (hexist : ∀ tok p, specTokenId chain b = some tok →
      getHeadHash db accountId tok = some p → chain.IsAccountBlockExisted p = .ok true)
    (hrev : ∀ tok p, specTokenId chain b = some tok →
      getHeadHash db accountId tok = some p → db.headHash p = some (accountId, tok)) :
    (∀ tok, specTokenId chain b = some tok →
      ∃ db2, addThenDelete (fuel + 1) chain db accountId b = some (.ok db2) ∧
        db2.accountTokenMeta = db.accountTokenMeta ∧
        db2.headHash = db.headHash ∧
        (∀ h, h ≠ b.hash → db2.blockListByToken h = db.blockListByToken h) ∧
        db2.blockListByToken b.hash = some (getHeadHash db accountId tok)) ∧
    (specTokenId chain b = none →
      ∃ e, addBlocks chain db accountId [b] = .error e ∧
        addThenDelete (fuel + 1) chain db accountId b = some (.error e)) := by
  constructor
  · intro tok hspec
    have htok := getBlockTokenId_of_specTokenId chain b tok hspec
    have hadd := addBlocks_single_ok chain db accountId b tok hnew htok
    cases hprev : getHeadHash db accountId tok with
    | none =>
      refine ⟨write (write db [.putBlockList b.hash none, .putMeta accountId tok b.hash,
        .putHead b.hash accountId tok]) [.delMeta accountId tok, .delHead b.hash],
        ?_, ?_, ?_, ?_, ?_⟩
      · simp only [addThenDelete, hadd, hprev]
        simp [deleteHash, write, applyOp, setKey_same, deleteWalk, getPrevHash,
          deleteHeadHashIndex, deleteHeadHash]
      · simp only [getHeadHash] at hprev
        simp only [write, List.foldl, applyOp, setKey_setKey]
        exact setKey_idem _ _ _ hprev
      · simp only [write, List.foldl, applyOp, setKey_setKey]
        exact setKey_idem _ _ _ hhead
      · intro h hne
        simp [write, applyOp, setKey_other _ _ _ _ hne]
      · simp [write, applyOp, setKey_same]
    | some p =>
      have hex := hexist tok p hspec hprev
      have hr := hrev tok p hspec hprev
      have hpb : p ≠ b.hash := by
        intro hEq
        rw [hEq] at hr
        rw [hhead] at hr
        cases hr
      refine ⟨write (write db [.putBlockList b.hash (some p), .putMeta accountId tok b.hash,
        .putHead b.hash accountId tok]) [.delMeta accountId tok, .delHead b.hash,
        .putMeta accountId tok p, .putHead p accountId tok], ?_, ?_, ?_, ?_, ?_⟩
      · simp only [addThenDelete, hadd, hprev]
        simp [deleteHash, write, applyOp, setKey_same, deleteWalk, getPrevHash,
          deleteHeadHashIndex, deleteHeadHash, hex, saveHeadHash]
      · simp only [getHeadHash] at hprev
        simp only [write, List.foldl, applyOp, setKey_setKey]
        exact setKey_idem _ _ _ hprev
      · simp only [write, List.foldl, applyOp]
        funext x
        by_cases hx : x = p
        · subst hx; simp [setKey, hr]
        · by_cases hx2 : x = b.hash
          · subst hx2; simp [setKey, hx, hhead]
          · simp [setKey, hx, hx2]
      · intro h hne
        simp [write, applyOp, setKey_other _ _ _ _ hne]
      · simp [write, applyOp, setKey_same]
  · intro hspec
    obtain ⟨e, he⟩ := getBlockTokenId_error_of_specTokenId chain b hspec
    have hadd := addBlocks_single_error chain db accountId b e hnew he
    exact ⟨e, hadd, by simp only [addThenDelete, hadd]⟩

/-- C1 (witness): the round trip on the store that holds the send block 1 of token 7 as the head
of account 1, with the second send block 2 of the same token. -/
theorem addBlocks_deleteHash_roundtrip_witness :
    ∃ db2, addThenDelete 1 fullChain
        (write IndexDB.empty [.putBlockList 1 none, .putMeta 1 7 1, .putHead 1 1 7]) 1
        (sendBlock 2 2 7) = some (.ok db2) ∧
      db2.accountTokenMeta =
        (write IndexDB.empty [.putBlockList 1 none, .putMeta 1 7 1, .putHead 1 1 7]).accountTokenMeta ∧
      db2.headHash =
        (write IndexDB.empty [.putBlockList 1 none, .putMeta 1 7 1, .putHead 1 1 7]).headHash ∧
      (∀ h, h ≠ (sendBlock 2 2 7).hash → db2.blockListByToken h =
        (write IndexDB.empty
          [.putBlockList 1 none, .putMeta 1 7 1, .putHead 1 1 7]).blockListByToken h) ∧
      db2.blockListByToken (sendBlock 2 2 7).hash =
        some (getHeadHash
          (write IndexDB.empty [.putBlockList 1 none, .putMeta 1 7 1, .putHead 1 1 7]) 1 7) :=
  (addBlocks_deleteHash_roundtrip 0 fullChain
    (write IndexDB.empty [.putBlockList 1 none, .putMeta 1 7 1, .putHead 1 1 7]) 1
    (sendBlock 2 2 7) rfl rfl
    (by intro tok p _ _; rfl)
    (by
      intro tok p h1 h2
      simp [specTokenId, fullChain, sendBlock] at h1
      subst h1
      simp [getHeadHash, write, applyOp, IndexDB.empty, setKey] at h2
      subst h2
      rfl)).1 7 rfl


theorem lastOfToken_none_hashes (tok : AccountBlock → TokenTypeId) (T : TokenTypeId)
    (pre : List AccountBlock) (h : lastOfToken tok T pre = none) : hashesOfToken tok T pre = [] := by
  simp only [lastOfToken, Option.map_eq_none', List.getLast?_eq_none_iff] at h
  simp [hashesOfToken, h]

/-- C5 (counterexample): with hash 2 pointing at hash 1, `GetBlockHashList` from origin 2 with
`count = 1` returns the one-element list `[2]`: it has followed no link, fewer than `count`,
although the predecessor of 2 is not null. -/
theorem GetBlockHashList_count_one_follows_no_link :
    GetBlockHashList twoBlockIndex 1 (some 2) 7 1 = .ok [2] ∧
      getPrevHash twoBlockIndex 2 = some 1 := by
  constructor <;> rfl

theorem hashListLoop_spec (db : IndexDB) (n : Nat) (cur : Hash) :
    List.Chain (fun a b => getPrevHash db a = some b) cur (hashListLoop db n cur) ∧
      (hashListLoop db n cur).length ≤ n ∧
      ((hashListLoop db n cur).length < n →
        getPrevHash db ((cur :: hashListLoop db n cur).getLast (List.cons_ne_nil _ _)) = none) := by
  induction n generalizing cur with
  | zero => simp [hashListLoop]
  | succ n ih =>
    cases hp : getPrevHash db cur with
    | none => simp [hashListLoop, hp]
    | some p =>
      obtain ⟨h1, h2, h3⟩ := ih p
      simp only [hashListLoop, hp]
      refine ⟨List.Chain.cons hp h1, by simpa using h2, ?_⟩
      intro hlt
      have hlt2 : (hashListLoop db n p).length < n := by simpa using hlt
      simpa [List.getLast_cons] using h3 hlt2

/-- C5 (amended): `GetBlockHashList` returns an error when a given origin has no
`BLOCK_LIST_BY_TOKEN` entry, returns the empty list without error when no origin is given and no
head is persisted, and otherwise returns a list that starts at the start hash (the origin when
given, else the persisted head), in which every later element is the `BLOCK_LIST_BY_TOKEN`
predecessor of the element before it, which follows at most `count - 1` links and stops before
`count - 1` links only at a null predecessor. -/
theorem GetBlockHashList_spec (db : IndexDB) (accountId : Nat) (originBlockHash : Option Hash)
    (tokenTypeId : TokenTypeId) (count : Nat) :
    (∀ h, originBlockHash = some h → isExisted db h = false →
      GetBlockHashList db accountId originBlockHash tokenTypeId count =
        .error (.blockNotExited h)) ∧
    (originBlockHash = none → getHeadHash db accountId tokenTypeId = none →
      GetBlockHashList db accountId originBlockHash tokenTypeId count = .ok []) ∧
    (∀ start, (originBlockHash = some start ∧ isExisted db start = true) ∨
        (originBlockHash = none ∧ getHeadHash db accountId tokenTypeId = some start) →
      ∃ rest, GetBlockHashList db accountId originBlockHash tokenTypeId count =
          .ok (start :: rest) ∧
        List.Chain (fun a b => getPrevHash db a = some b) start rest ∧
        rest.length ≤ count - 1 ∧
        (rest.length < count - 1 →
          getPrevHash db ((start :: rest).getLast (List.cons_ne_nil _ _)) = none)) := by
  refine ⟨?_, ?_, ?_⟩
  · intro h ho hex
    simp [GetBlockHashList, ho, hex]
  · intro ho hh
    simp [GetBlockHashList, ho, hh]
  · intro start hs
    refine ⟨hashListLoop db (count - 1) start, ?_, hashListLoop_spec db (count - 1) start⟩
    rcases hs with ⟨ho, hex⟩ | ⟨ho, hh⟩
    · simp [GetBlockHashList, ho, hex]
    · simp [GetBlockHashList, ho, hh]

/-- C5 (witness): from origin 2 with `count = 5` on the index in which 2 points at 1. -/
theorem GetBlockHashList_spec_witness :
    ∃ rest, GetBlockHashList twoBlockIndex 1 (some 2) 7 5 = .ok (2 :: rest) ∧
      List.Chain (fun a b => getPrevHash twoBlockIndex a = some b) 2 rest ∧
      rest.length ≤ 5 - 1 ∧
      (rest.length < 5 - 1 →
        getPrevHash twoBlockIndex ((2 :: rest).getLast (List.cons_ne_nil _ _)) = none) :=
  (GetBlockHashList_spec twoBlockIndex 1 (some 2) 7 5).2.2 2 (Or.inl ⟨rfl, rfl⟩)

theorem hashListLoop_take (db : IndexDB) (fuel : Nat) :
    ∀ (start : Hash) (l : List Hash), prevChain db fuel start = some l →
      ∀ n, start :: hashListLoop db n start = l.take (n + 1) := by
  induction fuel with
  | zero => intro start l h; simp [prevChain] at h
  | succ fuel ih =>
    intro start l h n
    cases hp : getPrevHash db start with
    | none =>
      simp only [prevChain, hp, Option.some.injEq] at h
      subst h
      cases n <;> simp [hashListLoop, hp]
    | some p =>
      simp only [prevChain, hp, Option.map_eq_some'] at h
      obtain ⟨l2, hl2, rfl⟩ := h
      cases n with
      | zero => simp [hashListLoop]
      | succ n =>
        have := ih p l2 hl2 n
        simp only [hashListLoop, hp, List.take_succ_cons, this]

/-- C19: when `GetBlockHashList` succeeds with a non-empty result, and the prev-pointer chain
from the first hash of the result (the start hash) reaches a null predecessor after `n` hashes,
the result is the first `max count 1` hashes of that chain; it has exactly
`min (max count 1) n` hashes.  With `count = 0` it is the one-element list of the start hash. -/
theorem GetBlockHashList_length (db : IndexDB) (accountId : Nat) (originBlockHash : Option Hash)
    (tokenTypeId : TokenTypeId) (count : Nat) (start : Hash) (rest : List Hash)
    (fuel : Nat) (chainHashes : List Hash)
    (hres : GetBlockHashList db accountId originBlockHash tokenTypeId count = .ok (start :: rest))
    (hchain : prevChain db fuel start = some chainHashes) :
    start :: rest = chainHashes.take (max count 1) ∧
      (start :: rest).length = min (max count 1) chainHashes.length := by
  have hloop : start :: rest = start :: hashListLoop db (count - 1) start := by
    unfold GetBlockHashList at hres
    split at hres
    · split at hres
      · cases hres
      · rename_i headHash _
        simp only [Except.ok.injEq, List.cons.injEq] at hres
        obtain ⟨h1, h2⟩ := hres
        subst h1
        rw [h2]
    · split at hres
      · simp only [Except.ok.injEq, List.cons.injEq] at hres
        obtain ⟨h1, h2⟩ := hres
        subst h1
        rw [h2]
      · cases hres
  have hmax : max count 1 = count - 1 + 1 := by omega
  have htake := hashListLoop_take db fuel start chainHashes hchain (count - 1)
  rw [hloop, htake, hmax]
  exact ⟨rfl, by simp [List.length_take]⟩

/-- C19 (witness): from origin 2 with `count = 0` on the index in which 2 points at 1, whose
chain from 2 has two hashes: the result has one hash. -/
theorem GetBlockHashList_length_witness :
    [2] = [2, 1].take (max 0 1) ∧ [2].length = min (max 0 1) [2, 1].length :=
  GetBlockHashList_length twoBlockIndex 1 (some 2) 7 0 2 [] 2 [2, 1] rfl rfl

theorem deleteWalk_duplicateIndex (fuel : Nat) :
    deleteWalk emptyChain duplicateIndex fuel 1 = none := by
  induction fuel with
  | zero => rfl
  | succ fuel ih =>
    have hp : getPrevHash duplicateIndex 1 = some 1 := rfl
    have he : emptyChain.IsAccountBlockExisted 1 = .ok false := rfl
    simp only [deleteWalk, hp, he, ih]

theorem prevChain_duplicateIndex (fuel : Nat) : prevChain duplicateIndex fuel 1 = none := by
  induction fuel with
  | zero => rfl
  | succ fuel ih =>
    have hp : getPrevHash duplicateIndex 1 = some 1 := rfl
    simp only [prevChain, hp, ih, Option.map_none']

/-- C17 (failing input): on the empty index, `addBlocks(1, [b, b])` with the send block `b` of
hash 1 returns without error and leaves `BLOCK_LIST_BY_TOKEN[1] = 1`: the second occurrence of
`b` is not skipped, because `isExisted` reads the store and the first put is still in the
batch, so `b` gets itself as predecessor.  Following prev-pointers from hash 1 reaches hash 1
again; no fuel lets the walk of `deleteHash` (on a chain that does not have the block any more)
or the prev-pointer chain end. -/
theorem addBlocks_duplicate_block_cycle :
    (addBlocks emptyChain IndexDB.empty 1 [sendBlock 1 1 7, sendBlock 1 1 7]).toOption.map
        (fun d => (d.blockListByToken 1, d.accountTokenMeta (1, 7), d.headHash 1)) =
      some (duplicateIndex.blockListByToken 1, duplicateIndex.accountTokenMeta (1, 7),
        duplicateIndex.headHash 1) ∧
    getPrevHash duplicateIndex 1 = some 1 ∧
    (∀ fuel, deleteWalk emptyChain duplicateIndex fuel 1 = none) ∧
    (∀ fuel, deleteHash fuel emptyChain duplicateIndex 1 = none) ∧
    (∀ fuel, prevChain duplicateIndex fuel 1 = none) := by
  refine ⟨rfl, rfl, deleteWalk_duplicateIndex, ?_, prevChain_duplicateIndex⟩
  intro fuel
  have hh : duplicateIndex.headHash 1 = some (1, 7) := rfl
  simp only [deleteHash, hh, deleteWalk_duplicateIndex]

/-- C16 (failing input): a freshly constructed index has status `STOP` and a nil `terminal`
channel; `Start` (with no error from the consistency check) returns with status `START` and the
ticker running, and `terminal` is still nil, since nothing ever makes the channel; the following
`Stop` panics at `close(fti.terminal)` instead of returning with status `STOP`. -/
theorem Stop_after_Start_panics :
    NewFilterTokenIndex none =
        .ok { status := STOP, ticker := none, terminal := none, wg := 0 } ∧
      Start logCritExits none none { status := STOP, ticker := none, terminal := none, wg := 0 } =
        .returned { status := START, ticker := some true, terminal := none, wg := 1 } ∧
      Stop { status := START, ticker := some true, terminal := none, wg := 1 } = .panicked := by
  refine ⟨rfl, ?_, ?_⟩ <;> decide

/-! ## Build pass -/

/-- C13 (failing input): two add events and the empty store.  The first build pass returns nil,
fetches the events 1 and 2 and persists `CONSUME_ID = 2`, the id of the last event it processed;
the second pass starts at the persisted id and fetches event 2 again. -/
theorem build_second_pass_refetches_last_event :
    (build 5 5 twoAddChain 1000 BuilderStore.empty).ending = none ∧
      (build 5 5 twoAddChain 1000 BuilderStore.empty).fetched = [1, 2] ∧
      (build 5 5 twoAddChain 1000 BuilderStore.empty).store.consumeId = some 2 ∧
      (build 5 5 twoAddChain 1000 (build 5 5 twoAddChain 1000 BuilderStore.empty).store).ending
        = none ∧
      (build 5 5 twoAddChain 1000 (build 5 5 twoAddChain 1000 BuilderStore.empty).store).fetched
        = [2] := by
  refine ⟨?_, ?_, ?_, ?_, ?_⟩ <;> decide

theorem applyEvent_consumeId (walkFuel : Nat) (ec : EventChain) (eventType : Nat)
    (blockHashList : List Hash) (st : BuildState) :
    (applyEvent walkFuel ec eventType blockHashList st).state.store.consumeId =
      st.store.consumeId := by
  unfold applyEvent
  split
  · split <;> rfl
  · split <;> rfl

theorem endOfEvent_consumeId (ec : EventChain) (EventNumPerBatch latestBeId eventId : Nat)
    (st : BuildState) :
    ((endOfEvent ec EventNumPerBatch latestBeId eventId st).2.store.consumeId =
        st.store.consumeId ∨
      (endOfEvent ec EventNumPerBatch latestBeId eventId st).2.store.consumeId = some eventId) ∧
    ((endOfEvent ec EventNumPerBatch latestBeId eventId st).1 = none → latestBeId ≤ eventId →
      (endOfEvent ec EventNumPerBatch latestBeId eventId st).2.store.consumeId =
        some eventId) := by
  unfold endOfEvent
  simp only
  split
  · split
    · rename_i abort db hflush
      exact ⟨Or.inl rfl, fun h => by cases h⟩
    · exact ⟨Or.inr rfl, fun _ _ => rfl⟩
  · rename_i hno
    refine ⟨Or.inl rfl, fun _ hle => ?_⟩
    exact absurd (Or.inl hle) hno

/-- One iteration of the loop of `build` leaves the consume id as it was or sets it to the id of
the event just processed, and sets it when the event is the latest one. -/
theorem buildStep_consumeId (walkFuel : Nat) (ec : EventChain)
    (EventNumPerBatch latestBeId eventId eventType : Nat) (blockHashList : List Hash)
    (st : BuildState) :
    ((buildStep walkFuel ec EventNumPerBatch latestBeId eventId eventType blockHashList
          st).state.store.consumeId = st.store.consumeId ∨
      (buildStep walkFuel ec EventNumPerBatch latestBeId eventId eventType blockHashList
          st).state.store.consumeId = some eventId) ∧
    ((buildStep walkFuel ec EventNumPerBatch latestBeId eventId eventType blockHashList
          st).abort = none → latestBeId ≤ eventId →
      (buildStep walkFuel ec EventNumPerBatch latestBeId eventId eventType blockHashList
          st).state.store.consumeId = some eventId) := by
  have ha := applyEvent_consumeId walkFuel ec eventType blockHashList st
  unfold buildStep
  simp only
  cases hab : (applyEvent walkFuel ec eventType blockHashList st).abort with
  | some abort =>
    simp only
    refine ⟨Or.inl ha, fun h => ?_⟩
    rw [hab] at h
    cases h
  | none =>
    simp only
    have he := endOfEvent_consumeId ec EventNumPerBatch latestBeId eventId
      (applyEvent walkFuel ec eventType blockHashList st).state
    rw [ha] at he
    exact he

theorem buildLoop_past (walkFuel : Nat) (ec : EventChain)
    (EventNumPerBatch latestBeId fuel eventId : Nat) (st : BuildState)
    (h : ¬ eventId ≤ latestBeId) :
    buildLoop walkFuel ec EventNumPerBatch latestBeId fuel eventId st =
      { ending := none, store := st.store, fetched := [], deleted := [] } := by
  cases fuel with
  | zero =>
    unfold buildLoop
    rw [if_neg h]
  | succ f =>
    unfold buildLoop
    rw [if_neg h]

/-- The loop of `build` keeps the consume id absent or at most the latest event id, and a loop
that ran at least once and ended without error leaves it at the latest event id. -/
theorem buildLoop_consumeId (walkFuel : Nat) (ec : EventChain)
    (EventNumPerBatch latestBeId fuel : Nat) :
    ∀ (eventId : Nat) (st : BuildState),
      (∀ c, st.store.consumeId = some c → c ≤ latestBeId) →
      (∀ c, (buildLoop walkFuel ec EventNumPerBatch latestBeId fuel eventId
          st).store.consumeId = some c → c ≤ latestBeId) ∧
      ((buildLoop walkFuel ec EventNumPerBatch latestBeId fuel eventId st).ending = none →
        eventId ≤ latestBeId →
        (buildLoop walkFuel ec EventNumPerBatch latestBeId fuel eventId st).store.consumeId =
          some latestBeId) ∧
      ((buildLoop walkFuel ec EventNumPerBatch latestBeId fuel eventId st).fetched ≠ [] →
        eventId ≤ latestBeId) := by
  induction fuel with
  | zero =>
    intro eventId st hok
    unfold buildLoop
    split
    · rename_i hle
      exact ⟨hok, fun h => by simp at h, fun _ => hle⟩
    · rename_i hgt
      exact ⟨hok, fun _ hle => absurd hle hgt, fun h => absurd rfl h⟩
  | succ fuel ih =>
    intro eventId st hok
    unfold buildLoop
    split
    · rename_i hle
      cases hev : ec.GetEvent eventId with
      | error err =>
        simp only
        exact ⟨hok, fun h => by simp at h, fun _ => hle⟩
      | ok ev =>
        obtain ⟨eventType, blockHashList⟩ := ev
        simp only
        obtain ⟨hc1, hc2⟩ := buildStep_consumeId walkFuel ec EventNumPerBatch latestBeId eventId
          eventType blockHashList st
        generalize buildStep walkFuel ec EventNumPerBatch latestBeId eventId eventType
          blockHashList st = step at hc1 hc2
        have hstepok : ∀ c, step.state.store.consumeId = some c → c ≤ latestBeId := by
          intro c hc
          rcases hc1 with h | h
          · exact hok c (h ▸ hc)
          · rw [h] at hc
            cases hc
            exact hle
        cases hab : step.abort with
        | some abort =>
          simp only
          exact ⟨hstepok, fun h => by simp at h, fun _ => hle⟩
        | none =>
          simp only
          obtain ⟨i1, i2, _⟩ := ih ((eventId + 1) % 2 ^ 64) step.state hstepok
          refine ⟨i1, ?_, fun _ => hle⟩
          intro hend _
          by_cases hnext : (eventId + 1) % 2 ^ 64 ≤ latestBeId
          · exact i2 hend hnext
          · have hmod : (eventId + 1) % 2 ^ 64 ≤ eventId + 1 := Nat.mod_le _ _
            have heq : eventId = latestBeId := by omega
            have hset := hc2 hab (by omega)
            rw [buildLoop_past walkFuel ec EventNumPerBatch latestBeId fuel _ step.state hnext]
            simp only
            rw [hset, heq]
    · rename_i hgt
      exact ⟨hok, fun _ hle => absurd hle hgt, fun h => absurd rfl h⟩

/-- C11: when the chain's latest event id is read as `latest` and `CONSUME_ID` is absent or at
most `latest`, then in the store that `build` leaves, however the pass ends (it returns nil, it
aborts on an error, or it is still running), `CONSUME_ID` is absent or at most `latest`; and
when the pass returns nil having fetched at least one event, `CONSUME_ID` is `latest`. -/
theorem build_consumeId_le_latest (fuel walkFuel : Nat) (ec : EventChain)
    (EventNumPerBatch : Nat) (store : BuilderStore) (latest : Nat)
    (hlatest : ec.GetLatestBlockEventId = .ok latest)
    (hok : ∀ c, store.consumeId = some c → c ≤ latest) :
    (∀ c, (build fuel walkFuel ec EventNumPerBatch store).store.consumeId = some c →
      c ≤ latest) ∧
    ((build fuel walkFuel ec EventNumPerBatch store).ending = none →
      (build fuel walkFuel ec EventNumPerBatch store).fetched ≠ [] →
      (build fuel walkFuel ec EventNumPerBatch store).store.consumeId = some latest) := by
  unfold build
  simp only [hlatest]
  obtain ⟨h1, h2, h3⟩ := buildLoop_consumeId walkFuel ec EventNumPerBatch latest fuel
    (match getConsumeId store with
      | none => 1
      | some c => c)
    { store := store, unsavedBlocks := [], notFoundBlocks := [], eventNum := 0 } hok
  exact ⟨h1, fun hend hf => h2 hend (h3 hf)⟩

/-- C11 (witness): the first build pass over the two add events, from the empty store. -/
theorem build_consumeId_le_latest_witness :
    (∀ c, (build 5 5 twoAddChain 1000 BuilderStore.empty).store.consumeId = some c → c ≤ 2) ∧
    ((build 5 5 twoAddChain 1000 BuilderStore.empty).ending = none →
      (build 5 5 twoAddChain 1000 BuilderStore.empty).fetched ≠ [] →
      (build 5 5 twoAddChain 1000 BuilderStore.empty).store.consumeId = some 2) :=
  build_consumeId_le_latest 5 5 twoAddChain 1000 BuilderStore.empty 2 rfl
    (by intro c h; cases h)

theorem scGet_some_mem (sc : SnapshotContent) (addr : Address) (hh : HashHeight)
    (h : scGet sc addr = some hh) : addr ∈ sc.map Prod.fst := by
  induction sc with
  | nil => simp [scGet] at h
  | cons x rest ih =>
    obtain ⟨a, v⟩ := x
    by_cases ha : a = addr
    · simp [ha]
    · simp only [scGet, ha, if_false] at h
      simp [ih h]

theorem scGet_of_mem (sc : SnapshotContent) (addr : Address) (h : addr ∈ sc.map Prod.fst) :
    ∃ hh, scGet sc addr = some hh := by
  induction sc with
  | nil => simp at h
  | cons x rest ih =>
    obtain ⟨a, v⟩ := x
    by_cases ha : a = addr
    · exact ⟨v, by simp [scGet, ha]⟩
    · simp only [List.map_cons, List.mem_cons] at h
      rcases h with h | h
      · exact absurd h.symm ha
      · obtain ⟨hh, hhh⟩ := ih h
        exact ⟨hh, by simp [scGet, ha, hhh]⟩

/-- A block at the pinned height comes before no block of its address that is to be confirmed,
when the heights of an address increase strictly along the list. -/
theorem pinned_head_not_before (sc : SnapshotContent) (b c : AccountBlock)
    (hb : atPinnedHeight sc b = true) (hc : toBeConfirmed sc c = true)
    (haddr : b.accountAddress = c.accountAddress) (hlt : b.height < c.height) : False := by
  simp only [atPinnedHeight, toBeConfirmed, haddr] at hb hc
  cases hg : scGet sc c.accountAddress with
  | none => simp [hg] at hb
  | some hh =>
    simp only [hg, decide_eq_true_eq] at hb hc
    omega

/-- The loop of `getBlocksToBeConfirmed` returns early with the blocks to be confirmed, when the
blocks at pinned heights that are left are as many as the addresses still to finish. -/
theorem confirmLoop_exact (sc : SnapshotContent) (scLen : Nat) (rest : List AccountBlock) :
    ∀ (acc : List AccountBlock) (cnt : Nat), cnt < scLen →
      cnt + (rest.filter (atPinnedHeight sc)).length = scLen →
      rest.Pairwise (fun a b => a.accountAddress = b.accountAddress → a.height < b.height) →
      (∀ c ∈ rest, toBeConfirmed sc c = true →
        ∃ d ∈ rest, d.accountAddress = c.accountAddress ∧ atPinnedHeight sc d = true) →
      confirmLoop sc scLen rest acc cnt = some (acc ++ rest.filter (toBeConfirmed sc)) := by
  induction rest with
  | nil =>
    intro acc cnt hlt hcount _ _
    simp at hcount
    omega
  | cons b rest ih =>
    intro acc cnt hlt hcount hpw hpin
    rw [List.pairwise_cons] at hpw
    have htail : atPinnedHeight sc b = false ∨ atPinnedHeight sc b = true := by
      cases atPinnedHeight sc b <;> simp
    -- a block of the tail to be confirmed has its pinned block in the tail
    have hpin2 : ∀ c ∈ rest, toBeConfirmed sc c = true →
        ∃ d ∈ rest, d.accountAddress = c.accountAddress ∧ atPinnedHeight sc d = true := by
      intro c hc hcc
      obtain ⟨d, hd, hda, hdp⟩ := hpin c (List.mem_cons_of_mem _ hc) hcc
      rcases List.mem_cons.1 hd with hEq | hIn
      · subst hEq
        exact absurd (pinned_head_not_before sc d c hdp hcc hda (hpw.1 c hc hda)) id
      · exact ⟨d, hIn, hda, hdp⟩
    cases hg : scGet sc b.accountAddress with
    | none =>
      have hb1 : atPinnedHeight sc b = false := by simp [atPinnedHeight, hg]
      have hb2 : toBeConfirmed sc b = false := by simp [toBeConfirmed, hg]
      have hc2 : cnt + (rest.filter (atPinnedHeight sc)).length = scLen := by
        simpa [List.filter_cons, hb1] using hcount
      simp only [confirmLoop, hg, ge_iff_le, Nat.not_le.2 hlt, if_false, List.filter_cons, hb2]
      exact ih acc cnt hlt hc2 hpw.2 hpin2
    | some hh =>
      rcases Nat.lt_trichotomy b.height hh.height with hlt2 | heq | hgt
      · have hb1 : atPinnedHeight sc b = false := by
          simp [atPinnedHeight, hg]; omega
        have hb2 : toBeConfirmed sc b = true := by
          simp [toBeConfirmed, hg]; omega
        have hc2 : cnt + (rest.filter (atPinnedHeight sc)).length = scLen := by
          simpa [List.filter_cons, hb1] using hcount
        simp only [confirmLoop, hg, hlt2, if_true, ge_iff_le, Nat.not_le.2 hlt, if_false,
          List.filter_cons, hb2]
        rw [ih (acc ++ [b]) cnt hlt hc2 hpw.2 hpin2]
        simp
      · have hb1 : atPinnedHeight sc b = true := by
          simp [atPinnedHeight, hg, heq]
        have hb2 : toBeConfirmed sc b = true := by
          simp [toBeConfirmed, hg, heq]
        have hc2 : cnt + 1 + (rest.filter (atPinnedHeight sc)).length = scLen := by
          simp [List.filter_cons, hb1] at hcount
          omega
        have hnl : ¬ b.height < hh.height := by omega
        simp only [confirmLoop, hg, heq, Nat.lt_irrefl, if_true, if_false, ge_iff_le,
          List.filter_cons, hb2]
        by_cases hfin : scLen ≤ cnt + 1
        · have hzero : (rest.filter (atPinnedHeight sc)).length = 0 := by omega
          have hnone : rest.filter (toBeConfirmed sc) = [] := by
            rw [List.filter_eq_nil_iff]
            intro c hc hcc
            obtain ⟨d, hd, _, hdp⟩ := hpin2 c hc hcc
            have : d ∈ rest.filter (atPinnedHeight sc) := List.mem_filter.2 ⟨hd, hdp⟩
            rw [List.length_eq_zero] at hzero
            rw [hzero] at this
            simp at this
          simp [hfin, hnone]
        · simp only [hfin, if_false]
          rw [ih (acc ++ [b]) (cnt + 1) (by omega) hc2 hpw.2 hpin2]
          simp
      · have hb1 : atPinnedHeight sc b = false := by
          simp [atPinnedHeight, hg]; omega
        have hb2 : toBeConfirmed sc b = false := by
          simp [toBeConfirmed, hg]; omega
        have hc2 : cnt + (rest.filter (atPinnedHeight sc)).length = scLen := by
          simpa [List.filter_cons, hb1] using hcount
        have hnl : ¬ b.height < hh.height := by omega
        have hne : ¬ b.height = hh.height := by omega
        simp only [confirmLoop, hg, hnl, hne, if_false, ge_iff_le, Nat.not_le.2 hlt,
          List.filter_cons, hb2]
        exact ih acc cnt hlt hc2 hpw.2 hpin2

/-- The blocks at pinned heights are as many as the addresses of the snapshot content, when every
address has one and heights increase strictly per address. -/
theorem pinned_count (sc : SnapshotContent) (unconfirmed : List AccountBlock)
    (hkeys : (sc.map Prod.fst).Nodup)
    (hinc : unconfirmed.Pairwise
      (fun a b => a.accountAddress = b.accountAddress → a.height < b.height))
    (hpin : ∀ addr hh, scGet sc addr = some hh →
      ∃ b ∈ unconfirmed, b.accountAddress = addr ∧ b.height = hh.height) :
    (unconfirmed.filter (atPinnedHeight sc)).length = sc.length := by
  have hnd : ((unconfirmed.filter (atPinnedHeight sc)).map (fun b => b.accountAddress)).Nodup := by
    have h1 := List.Pairwise.filter (atPinnedHeight sc) hinc
    have h2 : (unconfirmed.filter (atPinnedHeight sc)).Pairwise
        (fun a b => a.accountAddress ≠ b.accountAddress) := by
      refine List.Pairwise.imp_of_mem ?_ h1
      intro a b ha hb hab hEq
      have hpa := (List.mem_filter.1 ha).2
      have hpb := (List.mem_filter.1 hb).2
      have hlt := hab hEq
      simp only [atPinnedHeight, hEq] at hpa hpb
      cases hg : scGet sc b.accountAddress with
      | none => simp [hg] at hpa
      | some hh =>
        simp only [hg, decide_eq_true_eq] at hpa hpb
        omega
    exact List.Pairwise.map _ (fun _ _ h => h) h2
  have hperm : ((unconfirmed.filter (atPinnedHeight sc)).map (fun b => b.accountAddress)).Perm
      (sc.map Prod.fst) := by
    rw [List.perm_ext_iff_of_nodup hnd hkeys]
    intro addr
    constructor
    · intro h
      obtain ⟨b, hb, rfl⟩ := List.mem_map.1 h
      have hp := (List.mem_filter.1 hb).2
      simp only [atPinnedHeight] at hp
      cases hg : scGet sc b.accountAddress with
      | none => simp [hg] at hp
      | some hh => exact scGet_some_mem sc _ hh hg
    · intro h
      obtain ⟨hh, hg⟩ := scGet_of_mem sc addr h
      obtain ⟨b, hb, hba, hbh⟩ := hpin addr hh hg
      refine List.mem_map.2 ⟨b, List.mem_filter.2 ⟨hb, ?_⟩, hba⟩
      simp [atPinnedHeight, hba, hg, hbh]
  simpa using hperm.length_eq

/-- C3: for a non-empty snapshot content `sc` (a map: its addresses are pairwise distinct) and an
unconfirmed list in which the heights of each address increase strictly and every address of
`sc` has a block at exactly its pinned height, `getBlocksToBeConfirmed` returns no error and
returns exactly the unconfirmed blocks whose address is in `sc` and whose height is at most the
pinned height, in cache order. -/
theorem getBlocksToBeConfirmed_exact (unconfirmed : List AccountBlock) (sc : SnapshotContent)
    (hne : sc ≠ [])
    (hkeys : (sc.map Prod.fst).Nodup)
    (hinc : unconfirmed.Pairwise
      (fun a b => a.accountAddress = b.accountAddress → a.height < b.height))
    (hpin : ∀ addr hh, scGet sc addr = some hh →
      ∃ b ∈ unconfirmed, b.accountAddress = addr ∧ b.height = hh.height) :
    getBlocksToBeConfirmed unconfirmed sc =
      (some (unconfirmed.filter (toBeConfirmed sc)), none) := by
  have hpos : 0 < sc.length := List.length_pos.2 hne
  have hcount := pinned_count sc unconfirmed hkeys hinc hpin
  have hloop := confirmLoop_exact sc sc.length unconfirmed [] 0 hpos (by simpa using hcount) hinc
    (by
      intro c hc hcc
      simp only [toBeConfirmed] at hcc
      cases hg : scGet sc c.accountAddress with
      | none => simp [hg] at hcc
      | some hh =>
        obtain ⟨d, hd, hda, hdh⟩ := hpin _ hh hg
        exact ⟨d, hd, hda, by simp [atPinnedHeight, hda, hg, hdh]⟩)
  simp only [getBlocksToBeConfirmed, Nat.not_le.2 hpos, if_false, hloop, List.nil_append]

/-- C3 (witness): account 1 has unconfirmed blocks at heights 5, 6, 7 and the snapshot pins it at
height 6; the blocks at heights 5 and 6 are returned. -/
theorem getBlocksToBeConfirmed_exact_witness :
    getBlocksToBeConfirmed [blockAt 15 1 5, blockAt 16 1 6, blockAt 17 1 7]
        [(1, { hash := 16, height := 6 })] =
      (some ([blockAt 15 1 5, blockAt 16 1 6, blockAt 17 1 7].filter
        (toBeConfirmed [(1, { hash := 16, height := 6 })])), none) ∧
      [blockAt 15 1 5, blockAt 16 1 6, blockAt 17 1 7].filter
        (toBeConfirmed [(1, { hash := 16, height := 6 })]) = [blockAt 15 1 5, blockAt 16 1 6] :=
  ⟨getBlocksToBeConfirmed_exact [blockAt 15 1 5, blockAt 16 1 6, blockAt 17 1 7]
      [(1, { hash := 16, height := 6 })] (by decide) (by decide) (by decide)
      (by
        intro addr hh h
        by_cases ha : addr = 1
        · subst ha
          simp only [scGet, if_true, Option.some.injEq] at h
          subst h
          exact ⟨blockAt 16 1 6, by decide, rfl, rfl⟩
        · simp [scGet, Ne.symm ha] at h),
    by decide⟩

theorem confirmLoop_none (sc : SnapshotContent) (scLen : Nat) (rest : List AccountBlock) :
    ∀ (acc : List AccountBlock) (cnt : Nat),
      cnt + (rest.filter (atPinnedHeight sc)).length < scLen →
      confirmLoop sc scLen rest acc cnt = none := by
  induction rest with
  | nil => intro acc cnt _; rfl
  | cons b rest ih =>
    intro acc cnt hlt
    cases hg : scGet sc b.accountAddress with
    | none =>
      have hb1 : atPinnedHeight sc b = false := by simp [atPinnedHeight, hg]
      simp only [List.filter_cons, hb1] at hlt
      have hc : ¬ scLen ≤ cnt := by simp at hlt; omega
      simp only [confirmLoop, hg, ge_iff_le, hc, if_false]
      exact ih acc cnt (by simpa using hlt)
    | some hh =>
      rcases Nat.lt_trichotomy b.height hh.height with hlt2 | heq | hgt
      · have hb1 : atPinnedHeight sc b = false := by
          simp [atPinnedHeight, hg]; omega
        simp only [List.filter_cons, hb1] at hlt
        have hc : ¬ scLen ≤ cnt := by simp at hlt; omega
        simp only [confirmLoop, hg, hlt2, if_true, ge_iff_le, hc, if_false]
        exact ih _ cnt (by simpa using hlt)
      · have hb1 : atPinnedHeight sc b = true := by
          simp [atPinnedHeight, hg, heq]
        simp only [List.filter_cons, hb1, if_true, List.length_cons] at hlt
        have hc : ¬ scLen ≤ cnt + 1 := by omega
        simp only [confirmLoop, hg, heq, Nat.lt_irrefl, if_true, if_false, ge_iff_le, hc]
        exact ih _ (cnt + 1) (by omega)
      · have hb1 : atPinnedHeight sc b = false := by
          simp [atPinnedHeight, hg]; omega
        simp only [List.filter_cons, hb1] at hlt
        have hc : ¬ scLen ≤ cnt := by simp at hlt; omega
        have hnl : ¬ b.height < hh.height := by omega
        have hne : ¬ b.height = hh.height := by omega
        simp only [confirmLoop, hg, hnl, hne, if_false, ge_iff_le, hc]
        exact ih _ cnt (by simpa using hlt)

/-- With at most one cached block per address and height, and an address of `sc` that has no
cached block at its pinned height, the blocks at pinned heights are fewer than the addresses. -/
theorem pinned_count_lt (sc : SnapshotContent) (unconfirmed : List AccountBlock)
    (huniq : unconfirmed.Pairwise
      (fun a b => a.accountAddress = b.accountAddress → a.height ≠ b.height))
    (addr : Address) (hh : HashHeight) (hpin : scGet sc addr = some hh)
    (hlack : ∀ b ∈ unconfirmed, ¬ (b.accountAddress = addr ∧ b.height = hh.height)) :
    (unconfirmed.filter (atPinnedHeight sc)).length < sc.length := by
  have h1 := List.Pairwise.filter (atPinnedHeight sc) huniq
  have h2 : (unconfirmed.filter (atPinnedHeight sc)).Pairwise
      (fun a b => a.accountAddress ≠ b.accountAddress) := by
    refine List.Pairwise.imp_of_mem ?_ h1
    intro a b ha hb hab hEq
    have hpa := (List.mem_filter.1 ha).2
    have hpb := (List.mem_filter.1 hb).2
    have hne := hab hEq
    simp only [atPinnedHeight, hEq] at hpa hpb
    cases hg : scGet sc b.accountAddress with
    | none => simp [hg] at hpa
    | some v =>
      simp only [hg, decide_eq_true_eq] at hpa hpb
      omega
  have hnd : ((unconfirmed.filter (atPinnedHeight sc)).map (fun b => b.accountAddress)).Nodup :=
    List.Pairwise.map _ (fun _ _ h => h) h2
  have hnot : addr ∉ (unconfirmed.filter (atPinnedHeight sc)).map (fun b => b.accountAddress) := by
    intro h
    obtain ⟨b, hb, hba⟩ := List.mem_map.1 h
    have hmem := List.mem_filter.1 hb
    have hp := hmem.2
    simp only [atPinnedHeight, hba, hpin, decide_eq_true_eq] at hp
    exact hlack b hmem.1 ⟨hba, hp⟩
  have hnd2 : (addr ::
      (unconfirmed.filter (atPinnedHeight sc)).map (fun b => b.accountAddress)).Nodup :=
    List.nodup_cons.2 ⟨hnot, hnd⟩
  have hsub : (addr ::
      (unconfirmed.filter (atPinnedHeight sc)).map (fun b => b.accountAddress)) ⊆
      sc.map Prod.fst := by
    intro a ha
    rcases List.mem_cons.1 ha with rfl | ha
    · exact scGet_some_mem sc _ hh hpin
    · obtain ⟨b, hb, rfl⟩ := List.mem_map.1 ha
      have hp := (List.mem_filter.1 hb).2
      simp only [atPinnedHeight] at hp
      cases hg : scGet sc b.accountAddress with
      | none => simp [hg] at hp
      | some v => exact scGet_some_mem sc _ v hg
  have hle := (List.subperm_of_subset hnd2 hsub).length_le
  simp only [List.length_cons, List.length_map] at hle
  omega

/-- C4: when the content of the snapshot block pins some address at a height for which the
unconfirmed cache holds no block of that address at exactly that height, `InsertSnapshotBlock`
returns the lack-block error with a nil block list and makes no call at all on the event
emitter, block store, index DB, cache, state DB or flusher.  The cache is one of the data model:
heights are strictly monotonic per account, so it holds at most one block per address and
height. -/
theorem InsertSnapshotBlock_lack_block (unconfirmed invalidBlocks : List AccountBlock)
    (snapshotBlock : SnapshotBlock)
    (huniq : unconfirmed.Pairwise
      (fun a b => a.accountAddress = b.accountAddress → a.height ≠ b.height))
    (addr : Address) (hh : HashHeight)
    (hpin : scGet snapshotBlock.snapshotContent addr = some hh)
    (hlack : ∀ b ∈ unconfirmed, ¬ (b.accountAddress = addr ∧ b.height = hh.height)) :
    InsertSnapshotBlock unconfirmed invalidBlocks snapshotBlock =
      ((none, some .lackBlock), []) := by
  have hlt := pinned_count_lt snapshotBlock.snapshotContent unconfirmed huniq addr hh hpin
    hlack
  have hpos : ¬ snapshotBlock.snapshotContent.length ≤ 0 := by omega
  have hloop := confirmLoop_none snapshotBlock.snapshotContent
    snapshotBlock.snapshotContent.length unconfirmed [] 0 (by simpa using hlt)
  simp [InsertSnapshotBlock, getBlocksToBeConfirmed, hpos, hloop]

/-- C4 (witness): the cache holds the blocks of address 1 at heights 5 and 6, and the snapshot
pins address 1 at height 7. -/
theorem InsertSnapshotBlock_lack_block_witness :
    InsertSnapshotBlock [blockAt 15 1 5, blockAt 16 1 6] [blockAt 16 1 6]
        { hash := 100, prevHash := 99, height := 10,
          snapshotContent := [(1, { hash := 17, height := 7 })] } =
      ((none, some .lackBlock), []) :=
  InsertSnapshotBlock_lack_block [blockAt 15 1 5, blockAt 16 1 6] [blockAt 16 1 6]
    { hash := 100, prevHash := 99, height := 10,
      snapshotContent := [(1, { hash := 17, height := 7 })] }
    (by decide) 1 { hash := 17, height := 7 } rfl (by decide)

/-- C14: with `Crit` ending the process, `InsertAccountBlock` returns (a nil error) only after
the five steps were made in this order: the prepare event, the cache update, the index DB
insert, the state DB write, the insert event.  When the index DB insert fails the process ends
after the crit log, without the state DB write and without the insert event; when the state DB
write fails the process ends after the crit log, without the insert event; in both cases nothing
is returned to the caller. -/
theorem InsertAccountBlock_five_steps (indexErr stateErr : Option Err)
    (accountBlock : AccountBlock) :
    ((InsertAccountBlock logCritExits indexErr stateErr accountBlock).1 = .returned none →
      (InsertAccountBlock logCritExits indexErr stateErr accountBlock).2 =
        [.trigger .prepareInsertAbsEvent [accountBlock], .cacheInsertAccountBlock accountBlock,
         .indexDBInsertAccountBlock accountBlock, .stateDBWrite accountBlock,
         .trigger .insertAbsEvent [accountBlock]]) ∧
    (indexErr = none → stateErr = none →
      (InsertAccountBlock logCritExits indexErr stateErr accountBlock).1 = .returned none) ∧
    (indexErr ≠ none →
      InsertAccountBlock logCritExits indexErr stateErr accountBlock =
        (.terminated,
          [.trigger .prepareInsertAbsEvent [accountBlock], .cacheInsertAccountBlock accountBlock,
           .indexDBInsertAccountBlock accountBlock, .logCrit])) ∧
    (indexErr = none → stateErr ≠ none →
      InsertAccountBlock logCritExits indexErr stateErr accountBlock =
        (.terminated,
          [.trigger .prepareInsertAbsEvent [accountBlock], .cacheInsertAccountBlock accountBlock,
           .indexDBInsertAccountBlock accountBlock, .stateDBWrite accountBlock, .logCrit])) := by
  cases indexErr <;> cases stateErr <;> simp [InsertAccountBlock, logCritExits]

/-- C14 (witness): the index DB insert fails with a chain error. -/
theorem InsertAccountBlock_five_steps_witness :
    InsertAccountBlock logCritExits (some (.chainErr 1)) none (sendBlock 1 1 7) =
      (.terminated,
        [.trigger .prepareInsertAbsEvent [sendBlock 1 1 7],
         .cacheInsertAccountBlock (sendBlock 1 1 7),
         .indexDBInsertAccountBlock (sendBlock 1 1 7), .logCrit]) :=
  (InsertAccountBlock_five_steps (some (.chainErr 1)) none (sendBlock 1 1 7)).2.2.1 (by simp)

/-! ## Snapshot pool -/

/-- C6 (counterexample): `delToHeight` succeeds and rolls the disk chain back to its first
block, then `rollbackCurrent` fails: `snapshotFork` returns that error and the disk chain stays
rolled back, while it held three blocks before the call. -/
theorem snapshotFork_error_keeps_disk_rollback :
    (snapshotFork (demoOps (some { hash := 12, height := 2 }) true) demoPool 2 1).2 =
        some (.poolErr 1) ∧
      (snapshotFork (demoOps (some { hash := 12, height := 2 }) true) demoPool 2 1).1.disk =
        [{ hash := 11, height := 1 }] ∧
      demoPool.disk =
        [{ hash := 11, height := 1 }, { hash := 22, height := 2 }, { hash := 33, height := 3 }] := by
  refine ⟨?_, ?_, ?_⟩ <;> decide

/-- C6 (amended): when `snapshotFork` returns an error, the fork version is the same as before
the call; when the error comes from `getForkPoint` or from a nil key point, the whole state is
the same as before the call; when the key point `k` was found, the disk chain is left as
`delToHeight(k.height)` left it, whichever later step failed. -/
theorem snapshotFork_error_state {D BC A FC : Type} (ops : ForkOps D BC A FC)
    (s s2 : PoolState D BC A) (longest current : FC) (e : Err)
    (h : snapshotFork ops s longest current = (s2, some e)) :
    s2.forkVersion = s.forkVersion ∧
      ((∀ k forked, ops.getForkPoint s.chainpool longest current ≠ .ok (some k, forked)) →
        s2 = s) ∧
      (∀ k forked, ops.getForkPoint s.chainpool longest current = .ok (some k, forked) →
        s2.disk = (ops.delToHeight s.disk k.height).1) := by
  unfold snapshotFork at h
  split at h
  · cases h
    exact ⟨rfl, fun _ => rfl, fun k forked hk => by simp_all⟩
  · cases h
    exact ⟨rfl, fun _ => rfl, fun k forked hk => by simp_all⟩
  · rename_i keyPoint forked hfp
    split at h
    · rename_i disk1 e1 hdel
      cases h
      refine ⟨rfl, fun hno => absurd hfp (hno _ _), ?_⟩
      intro k forked2 hk
      rw [hfp] at hk
      cases hk
      simp [hdel]
    · rename_i disk1 snapshots accounts hdel
      have hdisk : ∀ k forked2, ops.getForkPoint s.chainpool longest current =
          .ok (some k, forked2) → disk1 = (ops.delToHeight s.disk k.height).1 := by
        intro k forked2 hk
        rw [hfp] at hk
        cases hk
        simp [hdel]
      simp only at h
      split at h
      · cases h
        exact ⟨rfl, fun hno => absurd hfp (hno _ _), hdisk⟩
      · split at h
        · cases h
          exact ⟨rfl, fun hno => absurd hfp (hno _ _), hdisk⟩
        · split at h
          · cases h
            exact ⟨rfl, fun hno => absurd hfp (hno _ _), hdisk⟩
          · cases h

/-- C6 (witness): the failing run of the counterexample; the fork version is still 4 and the
disk chain is what `delToHeight 2` left. -/
theorem snapshotFork_error_state_witness :
    ({ demoPool with disk := [{ hash := 11, height := 1 }] } :
        PoolState (List PoolBlock) (Nat × Option HashHeight) (List Address)).forkVersion =
        demoPool.forkVersion ∧
      ((∀ k forked, (demoOps (some { hash := 12, height := 2 }) true).getForkPoint
          demoPool.chainpool 2 1 ≠ .ok (some k, forked)) →
        ({ demoPool with disk := [{ hash := 11, height := 1 }] } :
          PoolState (List PoolBlock) (Nat × Option HashHeight) (List Address)) = demoPool) ∧
      (∀ k forked, (demoOps (some { hash := 12, height := 2 }) true).getForkPoint
          demoPool.chainpool 2 1 = .ok (some k, forked) →
        ({ demoPool with disk := [{ hash := 11, height := 1 }] } :
          PoolState (List PoolBlock) (Nat × Option HashHeight) (List Address)).disk =
          ((demoOps (some { hash := 12, height := 2 }) true).delToHeight demoPool.disk
            k.height).1) :=
  snapshotFork_error_state (demoOps (some { hash := 12, height := 2 }) true) demoPool
    { demoPool with disk := [{ hash := 11, height := 1 }] } 2 1 (.poolErr 1) rfl

/-- C7: whenever `snapshotFork` returns success, the chain pool it leaves is the result of a
successful `CurrentModifyToChain(longest, (forked.hash, forked.height))`, where `forked` is the
shared ancestor that `getForkPoint` answered, and the fork version is the one before the call
plus one; whenever the first divergent block `k` is nil, it returns the key-point error and the
state (disk chain, chain pool, account pools, fork version) is the one before the call. -/
theorem snapshotFork_success_and_nil_keyPoint {D BC A FC : Type} (ops : ForkOps D BC A FC)
    (s : PoolState D BC A) (longest current : FC) :
    (∀ s2, snapshotFork ops s longest current = (s2, none) →
      ∃ k forked bc, ops.getForkPoint s.chainpool longest current = .ok (some k, forked) ∧
        ops.CurrentModifyToChain bc longest { hash := forked.hash, height := forked.height } =
          (s2.chainpool, none) ∧
        s2.forkVersion = s.forkVersion + 1) ∧
    (∀ forked, ops.getForkPoint s.chainpool longest current = .ok (none, forked) →
      snapshotFork ops s longest current = (s, some .keyPointIsNil)) := by
  constructor
  · intro s2 h
    unfold snapshotFork at h
    split at h
    · cases h
    · cases h
    · rename_i keyPoint forked hfp
      split at h
      · cases h
      · simp only at h
        split at h
        · cases h
        · split at h
          · cases h
          · split at h
            · cases h
            · rename_i snapshots accounts _ _ _ _ _ _ hcm
              cases h
              refine ⟨keyPoint, forked,
                (if snapshots.length > 0 then ops.rollbackCurrent s.chainpool snapshots
                  else (s.chainpool, none)).1, hfp, ?_, rfl⟩
              exact Prod.ext rfl hcm
  · intro forked hfp
    simp [snapshotFork, hfp]

/-- C7 (witness): the successful fork switch of the example pool, and a fork point without a
key point. -/
theorem snapshotFork_success_and_nil_keyPoint_witness :
    (snapshotFork (demoOps (some { hash := 12, height := 2 }) false) demoPool 2 1).2 = none ∧
      (snapshotFork (demoOps (some { hash := 12, height := 2 }) false) demoPool 2 1).1.chainpool =
        (2, some { hash := 11, height := 1 }) ∧
      (snapshotFork (demoOps (some { hash := 12, height := 2 }) false) demoPool 2 1).1.forkVersion
        = 5 ∧
      snapshotFork (demoOps none false) demoPool 2 1 = (demoPool, some .keyPointIsNil) :=
  ⟨by decide, by decide, by decide,
    (snapshotFork_success_and_nil_keyPoint (demoOps none false) demoPool 2 1).2
      { hash := 11, height := 1 } rfl⟩

/-- C15 (counterexample): the snapshot content pins address 1 and no per-account result is
`FAIL` (the result of address 1 is `SUCCESS`): `insertVerifyFail` requests nothing and leaves
the fork version at 4; it is not bumped. -/
theorem insertVerifyFail_no_fail_no_bump :
    insertVerifyFail [(1, { hash := 15, height := 5 })] (fun _ => .SUCCESS) 4 = ([], 4) := by
  decide

/-- C15 (amended): `insertVerifyFail` requests `ForkAccountTo(address, pinnedHashHeight)` for
exactly the entries of the snapshot content whose per-account result is `FAIL`; when there is
such an entry it bumps the fork version by one, and when there is none it leaves the fork
version as it was. -/
theorem insertVerifyFail_spec (snapshotContent : SnapshotContent)
    (results : Address → VerifyResult) (forkVersion : Nat) :
    (∀ addr hh, (addr, hh) ∈ (insertVerifyFail snapshotContent results forkVersion).1 ↔
      ((addr, hh) ∈ snapshotContent ∧ results addr = .FAIL)) ∧
    ((∃ e ∈ snapshotContent, results e.1 = .FAIL) →
      (insertVerifyFail snapshotContent results forkVersion).2 = forkVersion + 1) ∧
    ((∀ e ∈ snapshotContent, results e.1 ≠ .FAIL) →
      (insertVerifyFail snapshotContent results forkVersion).2 = forkVersion) := by
  have hlen : (snapshotContent.filter (fun e => decide (results e.1 = .FAIL))).length > 0 ↔
      ∃ e ∈ snapshotContent, results e.1 = .FAIL := by
    rw [gt_iff_lt, List.length_pos, ne_eq, List.filter_eq_nil_iff]
    simp
  refine ⟨?_, ?_, ?_⟩
  · intro addr hh
    by_cases hpos : (snapshotContent.filter (fun e => decide (results e.1 = .FAIL))).length > 0
    · simp [insertVerifyFail, hpos, forkAccounts, List.mem_filter]
    · have hnone : ¬ ∃ e ∈ snapshotContent, results e.1 = .FAIL := fun h => hpos (hlen.2 h)
      simp only [insertVerifyFail, hpos, if_false, List.not_mem_nil, false_iff, not_and]
      intro hmem hfail
      exact hnone ⟨(addr, hh), hmem, hfail⟩
  · intro h
    simp [insertVerifyFail, hlen.2 h, forkAccounts, versionInc]
  · intro h
    have hpos : ¬ (snapshotContent.filter (fun e => decide (results e.1 = .FAIL))).length > 0 := by
      intro hp
      obtain ⟨e, he, hf⟩ := hlen.1 hp
      exact h e he hf
    simp [insertVerifyFail, hpos]

/-- C15 (witness): of the two pinned addresses, address 2 has the result `FAIL`; the fork to its
pinned height is requested and the fork version goes from 4 to 5. -/
theorem insertVerifyFail_spec_witness :
    (insertVerifyFail [(1, { hash := 15, height := 5 }), (2, { hash := 26, height := 6 })]
        (fun a => if a = 2 then .FAIL else .SUCCESS) 4).2 = 4 + 1 :=
  (insertVerifyFail_spec [(1, { hash := 15, height := 5 }), (2, { hash := 26, height := 6 })]
    (fun a => if a = 2 then .FAIL else .SUCCESS) 4).2.1
    ⟨(2, { hash := 26, height := 6 }), by decide, by decide⟩

/-- C18 (counterexample): the pool's one block, at height `tailHeight + 1`, is verified with the
result `FAIL`, but the fork version moves during the verification: the walk skips the block and
returns `nil, nil`, although it met a block whose verification result is `FAIL`. -/
theorem snapshotTryInsert_stale_fail_skipped :
    (snapshotTryInsert logCritExits (demoTryOps 1 .FAIL) 5 (0, 0)).ending = .returned none ∧
      (snapshotTryInsert logCritExits (demoTryOps 1 .FAIL) 5 (0, 0)).visited =
        [{ state := (1, 0), block := { hash := 11, height := 1 }, stat := .FAIL }] ∧
      (demoTryOps 1 .FAIL).verifyResult .FAIL = .FAIL := by
  refine ⟨?_, ?_, ?_⟩ <;> decide

theorem tryInsertVerdict_spec {S Stat : Type} (critExits : Bool) (ops : TryInsertOps S Stat)
    (s2 : S) (block : PoolBlock) (stat : Stat) :
    (tryInsertVerdict critExits ops s2 block stat).visit =
        { state := s2, block := block, stat := stat } ∧
    ((tryInsertVerdict critExits ops s2 block stat).wrote = true →
      ops.checkForkVersion s2 block = true ∧ ops.verifyResult stat = .SUCCESS ∧
        block.height = (ops.tailHeight s2 + 1) % 2 ^ 64) ∧
    (Visit.outOfOrder ops { state := s2, block := block, stat := stat } →
      (tryInsertVerdict critExits ops s2 block stat).ending = some (.returned none) ∧
        (tryInsertVerdict critExits ops s2 block stat).wrote = false) ∧
    (Visit.stops ops { state := s2, block := block, stat := stat } →
      (tryInsertVerdict critExits ops s2 block stat).ending =
        some (.returned (some (stat, block)))) ∧
    (∀ p, (tryInsertVerdict critExits ops s2 block stat).ending = some (.returned (some p)) →
      Visit.stops ops { state := s2, block := block, stat := stat }) := by
  unfold tryInsertVerdict
  simp only [Visit.outOfOrder, Visit.stops]
  cases hc : ops.checkForkVersion s2 block
  · simp
  · cases hres : ops.verifyResult stat with
    | PENDING => simp
    | FAIL => simp
    | SUCCESS =>
      by_cases hheight : block.height = (ops.tailHeight s2 + 1) % 2 ^ 64
      · simp only [if_pos hheight]
        rcases hw : ops.writeToChain s2 block with ⟨s3, _ | e⟩ <;> simp [hheight]
      · simp only [if_neg hheight]
        simp
    | other code => cases critExits <;> simp

theorem getLast?_cons_of_getLast? {α : Type} (a v : α) (l : List α)
    (h : l.getLast? = some v) : (a :: l).getLast? = some v := by
  cases l with
  | nil => simp at h
  | cons b l => simpa [List.getLast?_cons_cons] using h

/-- What one iteration of the walk does, by the verdict on its block. -/
theorem tryInsertStep_spec {S Stat : Type} (critExits : Bool) (ops : TryInsertOps S Stat)
    (s : S) (block : PoolBlock) :
    ((tryInsertStep critExits ops s block).wrote = true →
      ops.checkForkVersion (tryInsertStep critExits ops s block).visit.state
          (tryInsertStep critExits ops s block).visit.block = true ∧
        ops.verifyResult (tryInsertStep critExits ops s block).visit.stat = .SUCCESS ∧
        (tryInsertStep critExits ops s block).visit.block.height =
          (ops.tailHeight (tryInsertStep critExits ops s block).visit.state + 1) % 2 ^ 64) ∧
    ((tryInsertStep critExits ops s block).visit.outOfOrder ops →
      (tryInsertStep critExits ops s block).ending = some (.returned none) ∧
        (tryInsertStep critExits ops s block).wrote = false) ∧
    ((tryInsertStep critExits ops s block).visit.stops ops →
      (tryInsertStep critExits ops s block).ending =
        some (.returned (some ((tryInsertStep critExits ops s block).visit.stat,
          (tryInsertStep critExits ops s block).visit.block)))) ∧
    (∀ p, (tryInsertStep critExits ops s block).ending = some (.returned (some p)) →
      (tryInsertStep critExits ops s block).visit.stops ops) := by
  obtain ⟨hvisit, hwrote, hout, hstops, hpair⟩ := tryInsertVerdict_spec critExits ops
    (ops.verifySnapshot
      (if !ops.checkForkVersion s block then ops.resetForkVersion s block else s) block).2
    block
    (ops.verifySnapshot
      (if !ops.checkForkVersion s block then ops.resetForkVersion s block else s) block).1
  have hv : (tryInsertStep critExits ops s block).visit =
      { state := (ops.verifySnapshot
          (if !ops.checkForkVersion s block then ops.resetForkVersion s block else s) block).2,
        block := block,
        stat := (ops.verifySnapshot
          (if !ops.checkForkVersion s block then ops.resetForkVersion s block else s)
          block).1 } := hvisit
  rw [hv]
  exact ⟨hwrote, hout, hstops, hpair⟩

/-- The properties of a walk of `snapshotTryInsert`, from any height and state. -/
theorem tryInsertLoop_spec {S Stat : Type} (critExits : Bool) (ops : TryInsertOps S Stat)
    (headH fuel : Nat) :
    ∀ (i : Nat) (s : S),
      (∀ v ∈ (tryInsertLoop critExits ops headH fuel i s).writes,
        ops.checkForkVersion v.state v.block = true ∧ ops.verifyResult v.stat = .SUCCESS ∧
          v.block.height = (ops.tailHeight v.state + 1) % 2 ^ 64) ∧
      (∀ v ∈ (tryInsertLoop critExits ops headH fuel i s).visited, v.outOfOrder ops →
        (tryInsertLoop critExits ops headH fuel i s).visited.getLast? = some v ∧
          (tryInsertLoop critExits ops headH fuel i s).ending = .returned none) ∧
      (∀ v ∈ (tryInsertLoop critExits ops headH fuel i s).visited, v.stops ops →
        (tryInsertLoop critExits ops headH fuel i s).visited.getLast? = some v ∧
          (tryInsertLoop critExits ops headH fuel i s).ending =
            .returned (some (v.stat, v.block))) ∧
      (∀ p, (tryInsertLoop critExits ops headH fuel i s).ending = .returned (some p) →
        ∃ v ∈ (tryInsertLoop critExits ops headH fuel i s).visited, v.stops ops) := by
  induction fuel with
  | zero =>
    intro i s
    unfold tryInsertLoop
    split <;> simp
  | succ fuel ih =>
    intro i s
    unfold tryInsertLoop
    split
    · cases hb : ops.getBlock s i with
      | none => simp
      | some block =>
        simp only
        obtain ⟨hwrote, hout, hstops, hpair⟩ := tryInsertStep_spec critExits ops s block
        generalize tryInsertStep critExits ops s block = st at hwrote hout hstops hpair
        cases hend : st.ending with
        | some e =>
          simp only
          refine ⟨?_, ?_, ?_, ?_⟩
          · intro v hv
            cases hw : st.wrote with
            | false => simp [hw] at hv
            | true =>
              simp only [hw, if_true, List.mem_singleton] at hv
              subst hv
              exact hwrote hw
          · intro v hv ho
            simp only [List.mem_singleton] at hv
            subst hv
            have := (hout ho).1
            rw [hend] at this
            simp only [Option.some.injEq] at this
            exact ⟨rfl, this⟩
          · intro v hv hs
            simp only [List.mem_singleton] at hv
            subst hv
            have := hstops hs
            rw [hend] at this
            simp only [Option.some.injEq] at this
            exact ⟨rfl, this⟩
          · intro p hp
            refine ⟨st.visit, by simp, hpair p ?_⟩
            rw [hend, hp]
        | none =>
          simp only
          obtain ⟨h1, h2, h3, h4⟩ := ih ((i + 1) % 2 ^ 64) st.state
          refine ⟨?_, ?_, ?_, ?_⟩
          · intro v hv
            cases hw : st.wrote with
            | false =>
              simp only [hw] at hv
              exact h1 v (by simpa using hv)
            | true =>
              simp only [hw, if_true] at hv
              rcases List.mem_cons.1 hv with hEq | hIn
              · subst hEq; exact hwrote hw
              · exact h1 v hIn
          · intro v hv ho
            rcases List.mem_cons.1 hv with hEq | hIn
            · subst hEq
              have := (hout ho).1
              rw [hend] at this
              cases this
            · obtain ⟨hl, he⟩ := h2 v hIn ho
              exact ⟨getLast?_cons_of_getLast? _ _ _ hl, he⟩
          · intro v hv hs
            rcases List.mem_cons.1 hv with hEq | hIn
            · subst hEq
              have := hstops hs
              rw [hend] at this
              cases this
            · obtain ⟨hl, he⟩ := h3 v hIn hs
              exact ⟨getLast?_cons_of_getLast? _ _ _ hl, he⟩
          · intro p hp
            obtain ⟨v, hv, hs⟩ := h4 p hp
            exact ⟨v, List.mem_cons_of_mem _ hv, hs⟩
    · simp

theorem tryInsertVerdict_ending {S Stat : Type} (critExits : Bool) (ops : TryInsertOps S Stat)
    (s2 : S) (block : PoolBlock) (stat : Stat) :
    (tryInsertVerdict critExits ops s2 block stat).ending ≠ some .outOfFuel := by
  unfold tryInsertVerdict
  cases hc : ops.checkForkVersion s2 block
  · simp
  · cases hres : ops.verifyResult stat with
    | PENDING => simp
    | FAIL => simp
    | SUCCESS =>
      by_cases hheight : block.height = (ops.tailHeight s2 + 1) % 2 ^ 64
      · simp only [if_pos hheight]
        rcases hw : ops.writeToChain s2 block with ⟨s3, _ | e⟩ <;> simp
      · simp only [if_neg hheight]
        simp
    | other code => cases critExits <;> simp

/-- The walk ends within `headH + 1 - i` iterations when `headH` is below the largest `uint64`. -/
theorem tryInsertLoop_ends {S Stat : Type} (critExits : Bool) (ops : TryInsertOps S Stat)
    (headH fuel : Nat) (hmax : headH < 2 ^ 64 - 1) :
    ∀ (i : Nat) (s : S), headH + 1 - i ≤ fuel →
      (tryInsertLoop critExits ops headH fuel i s).ending ≠ .outOfFuel := by
  induction fuel with
  | zero =>
    intro i s hf
    have : ¬ i ≤ headH := by omega
    simp [tryInsertLoop, this]
  | succ fuel ih =>
    intro i s hf
    unfold tryInsertLoop
    split
    · rename_i hi
      cases hb : ops.getBlock s i with
      | none => simp
      | some block =>
        simp only
        have hne := tryInsertVerdict_ending critExits ops
          (ops.verifySnapshot
            (if !ops.checkForkVersion s block then ops.resetForkVersion s block else s) block).2
          block
          (ops.verifySnapshot
            (if !ops.checkForkVersion s block then ops.resetForkVersion s block else s) block).1
        have hstep : (tryInsertStep critExits ops s block).ending ≠ some .outOfFuel := hne
        generalize tryInsertStep critExits ops s block = st at hstep
        cases hend : st.ending with
        | some e =>
          simp only
          intro hEq
          rw [hend, hEq] at hstep
          exact hstep rfl
        | none =>
          simp only
          have hnext : (i + 1) % 2 ^ 64 = i + 1 := Nat.mod_eq_of_lt (by omega)
          rw [hnext]
          exact ih (i + 1) st.state (by omega)
    · simp

/-- C18 (amended): in a walk of `snapshotTryInsert`, every block passed to `writeToChain` had a
current fork version after its verification, the result `SUCCESS`, and height equal to the
current chain's `tailHeight + 1` at that moment.  A `SUCCESS` block (with a current fork version)
at any other height is the last block of the walk, is not written, and the walk returns
`nil, nil`.  A non-nil `(stat, block)` pair is returned exactly when the walk met a block whose
fork version was still current after its verification and whose result is `PENDING` or `FAIL`,
and the pair is that block with its stat; a block whose fork version moved during its
verification is skipped whatever its result.  With a head height below the largest `uint64` the
walk ends within `headHeight - tailHeight` iterations. -/
theorem snapshotTryInsert_walk {S Stat : Type} (critExits : Bool) (ops : TryInsertOps S Stat)
    (fuel : Nat) (s : S) :
    (∀ v ∈ (snapshotTryInsert critExits ops fuel s).writes,
      ops.checkForkVersion v.state v.block = true ∧ ops.verifyResult v.stat = .SUCCESS ∧
        v.block.height = (ops.tailHeight v.state + 1) % 2 ^ 64) ∧
    (∀ v ∈ (snapshotTryInsert critExits ops fuel s).visited, v.outOfOrder ops →
      (snapshotTryInsert critExits ops fuel s).visited.getLast? = some v ∧
        (snapshotTryInsert critExits ops fuel s).ending = .returned none ∧
        v ∉ (snapshotTryInsert critExits ops fuel s).writes) ∧
    ((∃ p, (snapshotTryInsert critExits ops fuel s).ending = .returned (some p)) ↔
      ∃ v ∈ (snapshotTryInsert critExits ops fuel s).visited, v.stops ops) ∧
    (∀ v ∈ (snapshotTryInsert critExits ops fuel s).visited, v.stops ops →
      (snapshotTryInsert critExits ops fuel s).ending = .returned (some (v.stat, v.block))) ∧
    (ops.headHeight s < 2 ^ 64 - 1 →
      ops.headHeight s + 1 - (ops.tailHeight s + 1) % 2 ^ 64 ≤ fuel →
      (snapshotTryInsert critExits ops fuel s).ending ≠ .outOfFuel) := by
  obtain ⟨h1, h2, h3, h4⟩ := tryInsertLoop_spec critExits ops (ops.headHeight s) fuel
    ((ops.tailHeight s + 1) % 2 ^ 64) s
  refine ⟨h1, ?_, ⟨?_, ?_⟩, ?_, ?_⟩
  · intro v hv ho
    obtain ⟨hl, he⟩ := h2 v hv ho
    refine ⟨hl, he, ?_⟩
    intro hw
    exact ho.2.2 (h1 v hw).2.2
  · rintro ⟨p, hp⟩
    exact h4 p hp
  · rintro ⟨v, hv, hs⟩
    exact ⟨_, (h3 v hv hs).2⟩
  · intro v hv hs
    exact (h3 v hv hs).2
  · intro hmax hf
    exact tryInsertLoop_ends critExits ops (ops.headHeight s) fuel hmax _ s hf

/-- C18 (witness): the pool's one block is verified `PENDING` and the fork version does not
move: the walk returns the block with its stat. -/
theorem snapshotTryInsert_walk_witness :
    (snapshotTryInsert logCritExits (demoTryOps 0 .PENDING) 2 (0, 0)).ending =
      .returned (some (.PENDING, { hash := 11, height := 1 })) :=
  (snapshotTryInsert_walk logCritExits (demoTryOps 0 .PENDING) 2 (0, 0)).2.2.2.1
    { state := (0, 0), block := { hash := 11, height := 1 }, stat := .PENDING }
    (by decide) ⟨rfl, Or.inl rfl⟩

/-! ## Consensus teller -/

namespace Interval

/-- C9: on the empty block store `newSnapshotChain` returns (without panic) a chain whose
`Head()` is the embedded genesis, of height 1 and hash `a601ad0a…38639`, and whose store holds
the genesis under its height and its hash and has the head pointer at (genesis hash, 1); run
again on that store, `newSnapshotChain` returns the same head and the same store. -/
theorem newSnapshotChain_genesis_idempotent :
    newSnapshotChain BlockStore.empty =
        some { head := some genesisSnapshot, store := genesisStore } ∧
      (snapshotChain.Head { head := some genesisSnapshot, store := genesisStore }) =
        some genesisSnapshot ∧
      genesisSnapshot.height = 1 ∧
      genesisSnapshot.hash =
        "a601ad0af8123a9dd85a201273276a82e41d6cc1e708bd62ea432dea76038639" ∧
      genesisStore.snapshotByHeight 1 = some genesisSnapshot ∧
      genesisStore.snapshotByHash
        "a601ad0af8123a9dd85a201273276a82e41d6cc1e708bd62ea432dea76038639" =
        some genesisSnapshot ∧
      genesisStore.snapshotHead =
        some { hash := "a601ad0af8123a9dd85a201273276a82e41d6cc1e708bd62ea432dea76038639",
               height := 1 } ∧
      newSnapshotChain genesisStore =
        some { head := some genesisSnapshot, store := genesisStore } := by
  refine ⟨rfl, rfl, rfl, rfl, ?_, ?_, rfl, ?_⟩
  · simp [genesisStore, BlockStore.SetSnapshotHead, BlockStore.PutSnapshot, setKey,
      genesisSnapshot, FirstHeight]
  · simp [genesisStore, BlockStore.SetSnapshotHead, BlockStore.PutSnapshot, setKey,
      genesisSnapshot]
  · simp [newSnapshotChain, genesisStore, BlockStore.SetSnapshotHead, BlockStore.PutSnapshot,
      setKey]

theorem setKey_none_undo {κ : Type} [DecidableEq κ] {β : Type} (m : κ → Option β) (k : κ)
    (v : Option β) (h : m k = none) : setKey (setKey m k v) k none = m := by
  funext x
  by_cases hx : x = k
  · subst hx; simp [setKey, h]
  · simp [setKey, hx]

/-- C10: for a chain with head `h` that its store holds under `h.hash` and points its head at,
and a block `b` on top of `h` (`b.preHash = h.hash`) of which the store holds nothing (neither
under `b.hash` nor under `b.height`): after `insertChain(b)` the head is `b` and the store head
pointer is `(b.hash, b.height)`, and a following `removeChain(b)` gives back the chain as it was
before the insert, in-memory head and store.  When the store holds no block under `b.preHash`,
`removeChain(b)` sets the in-memory head and the store head pointer to nil. -/
theorem insertChain_removeChain (snapCh : snapshotChain) (b : SnapshotBlock) :
    (∀ h, snapCh.head = some h → snapCh.store.snapshotByHash h.hash = some h →
      snapCh.store.snapshotHead = some { hash := h.hash, height := h.height } →
      b.preHash = h.hash → snapCh.store.snapshotByHash b.hash = none →
      snapCh.store.snapshotByHeight b.height = none →
      (snapCh.insertChain b).Head = some b ∧
        (snapCh.insertChain b).store.snapshotHead = some { hash := b.hash, height := b.height } ∧
        (snapCh.insertChain b).store.snapshotByHash b.hash = some b ∧
        ((snapCh.insertChain b).removeChain b).store.snapshotByHash b.hash = none ∧
        ((snapCh.insertChain b).removeChain b).Head = some h ∧
        ((snapCh.insertChain b).removeChain b).store.snapshotHead =
          some { hash := h.hash, height := h.height } ∧
        (snapCh.insertChain b).removeChain b = snapCh) ∧
    (snapCh.store.snapshotByHash b.preHash = none →
      (snapCh.removeChain b).Head = none ∧ (snapCh.removeChain b).store.snapshotHead = none) := by
  constructor
  · intro h hhead hstored hptr hpre hnew1 hnew2
    have hne : h.hash ≠ b.hash := by
      intro hEq
      rw [hEq] at hstored
      rw [hnew1] at hstored
      cases hstored
    have hlook : (snapCh.insertChain b).store.snapshotByHash b.preHash = some h := by
      simp [snapshotChain.insertChain, BlockStore.SetSnapshotHead, BlockStore.PutSnapshot,
        setKey, hne, hpre, hstored]
    have hfinal : (snapCh.insertChain b).removeChain b = snapCh := by
      obtain ⟨head0, store0⟩ := snapCh
      obtain ⟨byHeight, byHash, ptr⟩ := store0
      simp only at hhead hstored hptr hnew1 hnew2 hlook
      simp only [snapshotChain.removeChain, hlook]
      simp only [snapshotChain.insertChain, BlockStore.SetSnapshotHead, BlockStore.PutSnapshot,
        BlockStore.DeleteSnapshot, setKey_none_undo _ _ _ hnew1, setKey_none_undo _ _ _ hnew2,
        hhead, hptr]
    refine ⟨rfl, rfl, ?_, ?_, ?_, ?_, hfinal⟩
    · simp [snapshotChain.insertChain, BlockStore.SetSnapshotHead, BlockStore.PutSnapshot,
        setKey]
    · rw [hfinal]; exact hnew1
    · rw [hfinal]; exact hhead
    · rw [hfinal]; exact hptr
  · intro hnone
    simp [snapshotChain.removeChain, snapshotChain.Head, hnone, BlockStore.SetSnapshotHead]

/-- C10 (witness): a block of height 2 inserted on the genesis chain and removed again, and a
block whose predecessor the genesis store does not hold. -/
theorem insertChain_removeChain_witness :
    ((({ head := some genesisSnapshot, store := genesisStore } : snapshotChain).insertChain
        (blockOn 2 "b2" genesisSnapshot.hash)).removeChain (blockOn 2 "b2" genesisSnapshot.hash) =
      { head := some genesisSnapshot, store := genesisStore }) ∧
    (({ head := some genesisSnapshot, store := genesisStore } : snapshotChain).removeChain
        (blockOn 3 "b3" "unknown")).Head = none :=
  ⟨((insertChain_removeChain { head := some genesisSnapshot, store := genesisStore }
      (blockOn 2 "b2" genesisSnapshot.hash)).1 genesisSnapshot rfl
      (by simp [genesisStore, BlockStore.SetSnapshotHead, BlockStore.PutSnapshot, setKey])
      rfl rfl
      (by simp [genesisStore, BlockStore.SetSnapshotHead, BlockStore.PutSnapshot, setKey,
        BlockStore.empty, blockOn, genesisSnapshot])
      (by simp [genesisStore, BlockStore.SetSnapshotHead, BlockStore.PutSnapshot, setKey,
        BlockStore.empty, blockOn, genesisSnapshot, FirstHeight])).2.2.2.2.2.2,
    ((insertChain_removeChain { head := some genesisSnapshot, store := genesisStore }
      (blockOn 3 "b3" "unknown")).2
      (by simp [genesisStore, BlockStore.SetSnapshotHead, BlockStore.PutSnapshot, setKey,
        BlockStore.empty, blockOn, genesisSnapshot])).1⟩

end Interval

end GoVite
